import Mathlib

/-!
Verification development for the coverage-first mindmap builder
(`backend/stages/stage5_mindmap.py`, class `CoverageMindmapBuilder`, plus
`_fmt_local` from `backend/stages/common.py`).

The Python code is shallowly embedded as pure Lean functions.  Conventions:
* Python floats that carry exact decimal constants (confidences, scores,
  the 1.5 outcome weight) are modelled as exact integer milli-units (`Milli`).
* Millisecond timestamps are modelled as `Nat`.
* Python sets of strings are modelled as lists used with set semantics
  (membership / deduplicated cardinality only).
* The floating-point numerics of scikit-learn (k-means labelling, centroid
  top-terms, cosine-similarity argmax) are abstracted as an oracle record
  `KMOracle`; everything discrete that the code computes from their results
  is embedded exactly.  TF-IDF *vocabulary fitting* (token extraction, stop
  words, bigrams, `min_df`/`max_df` pruning and the `ValueError` conditions)
  is embedded concretely because it decides control flow.
* Text is assumed ASCII (the Python code uses `str.lower`, `\w`, `[a-zA-Z]`
  which coincide with the ASCII embedding on such inputs).
-/

namespace Mindmap

/-- Python floats are modelled in exact milli-units (`750` stands for
`0.75`).  Every constant in the source is a multiple of `0.001`, scores are
sums of `1.0` and `1.5` increments (multiples of `0.5`, hence exact in
binary floating point as well), and the only derived value,
`0.6 + 0.05 * score`, is a multiple of `0.025`, so the scaling is exact:
`600 + score / 20` milli-units with exact division. -/
abbrev Milli := Nat

/-! ## Basic Python-style string helpers -/

/-- Python `\s` whitespace class (ASCII). -/
def isPySpace (c : Char) : Bool :=
  c = ' ' || c = '\t' || c = '\n' || c = '\r' || c = '\x0b' || c = '\x0c'

/-- ASCII lowercase of a string (Python `str.lower` on ASCII input). -/
def pyLower (s : String) : String :=
  String.mk (s.data.map Char.toLower)

/-- Split a char list at every char satisfying `p`, keeping empty segments
(the semantics of Python `str.split(sep)`); `cur` is the current segment
reversed. -/
def splitChars (p : Char → Bool) : List Char → List Char → List (List Char)
  | [], cur => [cur.reverse]
  | c :: rest, cur =>
      if p c then cur.reverse :: splitChars p rest []
      else splitChars p rest (c :: cur)

/-- Split a string at chars satisfying `p`, keeping empty segments. -/
def splitStr (p : Char → Bool) (s : String) : List String :=
  (splitChars p s.data []).map String.mk

/-- Python `str.split()` with no argument: split on whitespace runs, no empties. -/
def pyWords (s : String) : List String :=
  (splitStr isPySpace s).filter (fun w => w ≠ "")

/-- `_clean` from stage5_mindmap.py: collapse whitespace runs to single
spaces and strip the ends (`re.sub(r"\s+", " ", text).strip()`). -/
def cleanText (s : String) : String :=
  " ".intercalate (pyWords s)

/-- `_clean` applied to an optional value (`_clean(None) = ""`). -/
def cleanOpt (s : Option String) : String :=
  cleanText (s.getD "")

/-- Python truthiness for strings. -/
def truthyS (s : String) : Bool := s ≠ ""

/-- Python `a or b` where `a` is `None`-able text: first truthy value. -/
def pyOrOpt (a b : Option String) : Option String :=
  if truthyS (a.getD "") then a else b

/-- Python `a or b` on strings. -/
def pyOrS (a b : String) : String :=
  if truthyS a then a else b

/-- Python truthiness for an optional string field: `None` and `""` are falsy. -/
def truthyOS (o : Option String) : Bool :=
  truthyS (o.getD "")

/-- Python strip of leading chars drawn from a set (`str.lstrip(chars)`). -/
def lstripSet (cs : List Char) (s : String) : String :=
  String.mk (s.data.dropWhile (fun c => cs.contains c))

/-- Python `str.strip()` (whitespace both ends). -/
def pyStrip (s : String) : String :=
  String.mk (((s.data.dropWhile isPySpace).reverse.dropWhile isPySpace).reverse)

/-- Python slicing `s[:n]` (prefix of at most `n` characters). -/
def strTake (s : String) (n : Nat) : String :=
  String.mk (s.data.take n)

/-- Characters matched by `[a-zA-Z0-9]`. -/
def isAlnumC (c : Char) : Bool := c.isAlpha || c.isDigit

/-- Characters matched by Python `\w` on ASCII input. -/
def isWordC (c : Char) : Bool := c.isAlpha || c.isDigit || c = '_'

/-- Infix (substring) test on char lists; `needle` may be empty. -/
def isInfixB (needle : List Char) : List Char → Bool
  | [] => needle.isEmpty
  | c :: t => needle.isPrefixOf (c :: t) || isInfixB needle t

/-- Python `needle in hay` on strings. -/
def pyIn (needle hay : String) : Bool :=
  isInfixB needle.data hay.data

/-- Cardinality of the set intersection `|set a ∩ set b|`. -/
def interCard (a b : List String) : Nat :=
  ((a.dedup).filter (fun x => b.contains x)).length

/-! ## Decimal rendering (Python `%d` / zero-padded f-strings) -/

/-- Digit character for a value `< 10`. -/
def digitChar (n : Nat) : Char := Char.ofNat (48 + n % 10)

/-- Decimal digits of a natural number, most significant first; structural
recursion on a fuel argument kept at least `n + 1` so the kernel can reduce
it (`n / 10 < n` for `n ≥ 10`). -/
def natToDecGo : Nat → Nat → List Char → List Char
  | 0, _, acc => acc
  | fuel + 1, n, acc =>
    let d := digitChar (n % 10)
    if n < 10 then d :: acc else natToDecGo fuel (n / 10) (d :: acc)

/-- Canonical decimal rendering of a natural number. -/
def natToDec (n : Nat) : String :=
  String.mk (natToDecGo (n + 1) n [])

/-- Left pad with zeros to a minimum width (Python `f"{n:0Nd}"`). -/
def padZero (w : Nat) (s : String) : String :=
  if s.length ≥ w then s
  else String.mk (List.replicate (w - s.length) '0') ++ s

/-- Python `f"{n:03d}"`. -/
def pad3 (n : Nat) : String := padZero 3 (natToDec n)

/-- Python `f"{n:02d}"`. -/
def pad2 (n : Nat) : String := padZero 2 (natToDec n)

/-! ## `_fmt_local` (common.py) and `_format_ms` -/

/-- `_fmt_local` from common.py: format milliseconds as `HH:MM:SS.mmm`
via the `divmod` chain. -/
def fmtLocal (ms : Nat) : String :=
  let s := ms / 1000
  let msr := ms % 1000
  let m := s / 60
  let sr := s % 60
  let h := m / 60
  let mr := m % 60
  pad2 h ++ ":" ++ pad2 mr ++ ":" ++ pad2 sr ++ "." ++ pad3 msr

/-- `_format_ms` from stage5_mindmap.py. -/
def formatMs (ms : Option Nat) : Option String :=
  ms.map fmtLocal

/-! ## `_tokenize`, `_slugify`, `_parse_ts_string` -/

/-- Scanner for `re.findall(r"[a-zA-Z][a-zA-Z0-9]+", s)`: a match starts at a
letter and greedily extends over alphanumerics.  `cur` holds the current
match (reversed) or `none` when not inside a match. -/
def tokRunsAux : List Char → Option (List Char) → List (List Char)
  | [], some cur => [cur.reverse]
  | [], none => []
  | c :: rest, some cur =>
      if isAlnumC c then tokRunsAux rest (some (c :: cur))
      else cur.reverse :: tokRunsAux rest none
  | c :: rest, none =>
      if c.isAlpha then tokRunsAux rest (some [c]) else tokRunsAux rest none

/-- `_tokenize`: lowercase, find `[a-zA-Z][a-zA-Z0-9]+` matches, keep those of
length `> 2`, as a set (deduplicated list; the regex only yields runs of
length ≥ 2, which the `> 2` filter subsumes). -/
def tokenize (text : String) : List String :=
  ((((tokRunsAux (pyLower text).data none).map String.mk).filter
      (fun t => t.length > 2))).dedup

/-- Collapse runs of non-alphanumeric chars to single hyphens
(`re.sub(r"[^a-zA-Z0-9]+", "-", s)`); `inGap` records being inside a run. -/
def collapseNonAlnum : List Char → Bool → List Char
  | [], _ => []
  | c :: rest, inGap =>
      if isAlnumC c then c :: collapseNonAlnum rest false
      else if inGap then collapseNonAlnum rest true
      else '-' :: collapseNonAlnum rest true

/-- `_slugify(text, default, max_len=32)`. -/
def slugify (text dflt : String) : String :=
  if ¬ truthyS text then dflt
  else
    let collapsed := collapseNonAlnum (pyLower text).data false
    let stripped := ((collapsed.dropWhile (· = '-')).reverse.dropWhile (· = '-')).reverse
    if stripped = [] then dflt else strTake (String.mk stripped) 32

/-- All characters are digits and the list is nonempty. -/
def allDigits (l : List Char) : Bool :=
  l ≠ [] && l.all Char.isDigit

/-- Digits-to-Nat (most significant first); callers check `allDigits`. -/
def digitsToNat (l : List Char) : Nat :=
  l.foldl (fun acc c => acc * 10 + (c.toNat - 48)) 0

/-- `_parse_ts_string`: parse `^(?:(\d+):)?(\d{1,2}):(\d{2})(?:\.(\d{1,3}))?$`
after `strip()`, returning milliseconds.  The final seconds group is 2 digits
optionally followed by `.` and 1–3 digits (taken literally as written, so
`".5"` contributes 5 ms, as in the Python). -/
def parseTsString (ts : Option String) : Option Nat :=
  match ts with
  | none => none
  | some raw =>
    if ¬ truthyS raw then none
    else
      let s := pyStrip raw
      let parts := s.split (· = ':')
      let parseSecMs (p : String) : Option (Nat × Nat) :=
        match p.split (· = '.') with
        | [ss] =>
            if allDigits ss.data ∧ ss.length = 2 then some (digitsToNat ss.data, 0) else none
        | [ss, mmm] =>
            if allDigits ss.data ∧ ss.length = 2 ∧ allDigits mmm.data ∧ mmm.length ≤ 3
            then some (digitsToNat ss.data, digitsToNat mmm.data) else none
        | _ => none
      match parts with
      | [mm, rest] =>
          if allDigits mm.data ∧ mm.length ≤ 2 then
            match parseSecMs rest with
            | some (sec, millis) =>
                some (((0 * 60 + digitsToNat mm.data) * 60 + sec) * 1000 + millis)
            | none => none
          else none
      | [hh, mm, rest] =>
          if allDigits hh.data ∧ allDigits mm.data ∧ mm.length ≤ 2 then
            match parseSecMs rest with
            | some (sec, millis) =>
                some (((digitsToNat hh.data * 60 + digitsToNat mm.data) * 60 + sec) * 1000
                  + millis)
            | none => none
          else none
      | _ => none

/-! ## Sentence splitting (`_split_sentences`) -/

/-- Is the most recently accumulated char sentence-ending punctuation? -/
def headIsPunct : List Char → Bool
  | p :: _ => p = '.' || p = '!' || p = '?'
  | [] => false

/-- `re.split(r"(?<=[.!?])\s+", line)`: cut at whitespace runs that directly
follow `.`/`!`/`?`.  `cur` is the current segment reversed; `none` means we
are consuming the whitespace run after a cut. -/
def sentSplitAux : List Char → Option (List Char) → List (List Char)
  | [], some cur => [cur.reverse]
  | [], none => [[]]
  | c :: rest, none =>
      if isPySpace c then sentSplitAux rest none else sentSplitAux rest (some [c])
  | c :: rest, some cur =>
      if isPySpace c ∧ headIsPunct cur then cur.reverse :: sentSplitAux rest none
      else sentSplitAux rest (some (c :: cur))

/-- `_split_sentences`: normalise line breaks, strip bullet markers, split on
sentence punctuation, keep cleaned fragments of at least 4 words. -/
def splitSentences (text : String) : List String :=
  let lines := splitStr (· = '\n') (String.mk (text.data.map (fun c => if c = '\r' then '\n' else c)))
  let segments := lines.foldl
    (fun acc rawLine =>
      let line := pyStrip rawLine
      if ¬ truthyS line then acc
      else
        let line :=
          if (match line.data with | c :: _ => c = '-' || c = '*' | [] => false) then
            pyStrip (lstripSet ['-', '*', ' '] line)
          else line
        acc ++ (sentSplitAux line.data (some [])).map String.mk)
    []
  (segments.filter (fun seg => (pyWords (cleanText seg)).length ≥ 4)).map cleanText

/-! ## Data containers (the `@dataclass`es) -/

/-- One `{"t": ..., "quote": ...}` evidence record. -/
structure EvidenceRec where
  t : Option String
  quote : Option String
deriving DecidableEq, Repr

/-- The `Claim` dataclass. -/
structure Claim where
  id : String
  text : String
  source : String
  chapter_id : Option String
  chapter_title : Option String
  participants : List String
  time_hint_ms : Option Nat
  confidence : Milli
  theme_id : Option String
deriving DecidableEq, Repr

/-- The `Outcome` dataclass. -/
structure Outcome where
  id : String
  type : String
  title : String
  owner : Option String
  people : List String
  deadline : Option String
  status : Option String
  evidence : List EvidenceRec
  time_hint_ms : Option Nat
  confidence : Milli
  theme_id : Option String
deriving DecidableEq, Repr

/-- The `Outcome.description` property. -/
def Outcome.description (o : Outcome) : String :=
  let evParts : List String :=
    ((o.evidence.take 2).map
        (fun ev => cleanText ((ev.t.getD "") ++ " — " ++ (ev.quote.getD "")))).filter
      truthyS
  let parts : List String :=
    [o.title]
    ++ (match o.owner with
        | some ow => if truthyS ow then ["Owner: " ++ ow] else []
        | none => [])
    ++ (match o.deadline with
        | some d => if truthyS d then ["Deadline: " ++ d] else []
        | none => [])
    ++ (match o.status with
        | some st =>
            if truthyS st ∧ pyLower st ≠ "pending" ∧ pyLower st ≠ "to-do"
            then ["Status: " ++ st] else []
        | none => [])
    ++ (if o.evidence ≠ [] then ["Evidence: " ++ "; ".intercalate evParts] else [])
  " | ".intercalate (parts.filter truthyS)

/-- The `Theme` dataclass.  `chapters` is a Python `set`; it is modelled as a
deduplicated list and only ever used with set semantics. -/
structure Theme where
  id : String
  label : String
  claim_indices : List Nat
  outcome_ids : List String
  chapters : List String
  keywords : List String
  score : Milli
deriving DecidableEq, Repr

/-- Add an element to a set-as-list. -/
def setAdd (l : List String) (x : String) : List String :=
  if l.contains x then l else l ++ [x]

/-! ## Upstream input records (permissive dict shapes) -/

/-- A chapter record (`{chapter_id, title, summary, ...}`). -/
structure ChapterRec where
  chapter_id : Option String
  title : Option String
  summary : Option String
deriving DecidableEq, Repr

/-- A timeline record (`{timestamp_ms, text, speakers}`). -/
structure TimelineRec where
  timestamp_ms : Option Nat
  text : String
  speakers : List String
deriving DecidableEq, Repr

/-- An action-item record with its field-name variants. -/
structure ActionRec where
  task : Option String
  action : Option String
  owner : Option String
  assignee : Option String
  deadline : Option String
  due_date : Option String
  status : Option String
  evidence : List EvidenceRec
  timestamp_ms : Option Nat
deriving DecidableEq, Repr

/-- An achievement record. -/
structure AchRec where
  achievement : Option String
  member : Option String
  members : Option (List (Option String))
  evidence : List EvidenceRec
deriving DecidableEq, Repr

/-- A blocker record. -/
structure BlockRec where
  blocker : Option String
  owner : Option String
  member : Option String
  affected_members : Option (List (Option String))
  evidence : List EvidenceRec
deriving DecidableEq, Repr

/-- The builder's whole input (`meeting_details`, `narrative_summary`,
`chapters`, `collective_summary`, `timeline`).  The `hats` argument is stored
by the Python constructor but never read by `build()`, so it is omitted. -/
structure BuilderInput where
  title : Option String
  participants : List String
  narrative_summary : String
  chapters : List ChapterRec
  action_items : List ActionRec
  achievements : List AchRec
  blockers : List BlockRec
  timeline : List TimelineRec
deriving DecidableEq, Repr

/-- A preprocessed timeline entry (`self.timeline_entries`). -/
structure TLEntry where
  timestamp_ms : Option Nat
  tokens : List String
  speakers : List String
deriving DecidableEq, Repr

/-- `self.participants`: roster entries with truthy cleaned text, kept raw. -/
def rosterOf (inp : BuilderInput) : List String :=
  inp.participants.filter (fun p => truthyS (cleanText p))

/-- `self.timeline_entries` construction in `__init__`. -/
def entriesOf (inp : BuilderInput) : List TLEntry :=
  inp.timeline.map (fun e =>
    { timestamp_ms := e.timestamp_ms
      tokens := tokenize e.text
      speakers := e.speakers.filter (fun s => truthyS (cleanText s)) })

/-! ## `_detect_participants` and `_match_time_hint` -/

/-- `_detect_participants`: roster names whose lowercase form occurs in the
lowercased text, in roster order. -/
def detectParticipants (roster : List String) (text : String) : List String :=
  roster.filter (fun p => pyIn (pyLower p) (pyLower text))

/-- Per-entry score inside `_match_time_hint`. -/
def entryScore (tokens pset : List String) (e : TLEntry) : Nat :=
  interCard tokens e.tokens +
    (if pset ≠ [] ∧ e.speakers ≠ [] then
        2 * interCard pset (e.speakers.map pyLower)
      else 0)

/-- `_match_time_hint`: fold over the timeline entries keeping the first
strict improvement among entries that carry a timestamp; accept only if the
best score reaches 2. -/
def matchTimeHint (entries : List TLEntry) (text : String)
    (participants : List String) : Option Nat :=
  if entries = [] then none
  else
    let tokens := tokenize text
    let pset := (participants.map pyLower).dedup
    let best := entries.foldl
      (fun (acc : Nat × Option Nat) e =>
        let sc := entryScore tokens pset e
        if sc > acc.1 ∧ e.timestamp_ms.isSome then (sc, e.timestamp_ms) else acc)
      (0, none)
    if best.1 ≥ 2 then best.2 else none

/-! ## `_extract_claims` -/

/-- The closure `add_claim`: returns the new claim (and increments the id
counter) unless the cleaned text has fewer than 4 words. -/
def mkClaim (roster : List String) (entries : List TLEntry) (cid : Nat)
    (text source : String) (chapter : Option ChapterRec) : Option Claim :=
  let cleaned := cleanText text
  if (pyWords cleaned).length < 4 then none
  else
    let participants := detectParticipants roster cleaned
    let timeHint := matchTimeHint entries cleaned participants
    some
      { id := "claim-" ++ pad3 cid
        text := cleaned
        source := source
        chapter_id := chapter.bind (·.chapter_id)
        chapter_title := chapter.bind (·.title)
        participants := participants
        time_hint_ms := timeHint
        confidence := if participants ≠ [] then 750 else 700
        theme_id := none }

/-- Sequentially add claims from a list of (text, source, chapter) triples,
threading the id counter. -/
def addClaims (roster : List String) (entries : List TLEntry) :
    Nat → List (String × String × Option ChapterRec) → List Claim
  | _, [] => []
  | cid, (text, source, chapter) :: rest =>
    match mkClaim roster entries cid text source chapter with
    | some c => c :: addClaims roster entries (cid + 1) rest
    | none => addClaims roster entries cid rest

/-- The candidate sentences of `_extract_claims`, in extraction order:
narrative sentences first, then each chapter's summary sentences. -/
def claimCandidates (inp : BuilderInput) : List (String × String × Option ChapterRec) :=
  (splitSentences inp.narrative_summary).map (fun s => (s, "Executive Narrative", none))
  ++ (inp.chapters.map (fun ch =>
        (splitSentences (ch.summary.getD "")).map
          (fun s => (s, cleanText (pyOrS (ch.title.getD "") "Chapter"), some ch)))).flatten

/-- `_extract_claims`. -/
def extractClaims (inp : BuilderInput) : List Claim :=
  addClaims (rosterOf inp) (entriesOf inp) 1 (claimCandidates inp)

/-! ## `_extract_outcomes` -/

/-- Python truthiness for `Option Nat` (`None` and `0` are falsy). -/
def truthyON (o : Option Nat) : Bool :=
  match o with
  | some n => n ≠ 0
  | none => false

/-- Python `a or b` on optional milliseconds. -/
def pyOrON (a b : Option Nat) : Option Nat :=
  if truthyON a then a else b

/-- The arguments the Python code passes to `add_outcome`, before the
cleaning performed inside `add_outcome` itself. -/
structure OutcomeArgs where
  type : String
  title : String
  owner : Option String
  people : List (Option String)
  deadline : Option String
  status : Option String
  evidence : List EvidenceRec
  time_hint_ms : Option Nat
deriving DecidableEq, Repr

/-- The closure `add_outcome`: drop when the cleaned title is empty,
otherwise build the `Outcome` (and increment the id counter). -/
def mkOutcome (oid : Nat) (a : OutcomeArgs) : Option Outcome :=
  let titleClean := cleanText a.title
  if ¬ truthyS titleClean then none
  else
    some
      { id := "outcome-" ++ pad3 oid
        type := a.type
        title := titleClean
        owner := (fun c => if truthyS c then some c else none) (cleanOpt a.owner)
        people := (a.people.map cleanOpt).filter truthyS
        deadline := (fun c => if truthyS c then some c else none) (cleanOpt a.deadline)
        status := (fun c => if truthyS c then some c else none) (cleanOpt a.status)
        evidence := a.evidence
        time_hint_ms := a.time_hint_ms
        confidence := if a.evidence ≠ [] then 850 else 750
        theme_id := none }

/-- Sequentially materialise outcomes, threading the id counter. -/
def addOutcomes : Nat → List OutcomeArgs → List Outcome
  | _, [] => []
  | oid, a :: rest =>
    match mkOutcome oid a with
    | some o => o :: addOutcomes (oid + 1) rest
    | none => addOutcomes oid rest

/-- First evidence record's `t` field, or `None`. -/
def firstEvidenceT (ev : List EvidenceRec) : Option String :=
  match ev with
  | e :: _ => e.t
  | [] => none

/-- The `add_outcome` argument list produced from one action item. -/
def actionArgs (item : ActionRec) : OutcomeArgs :=
  let evidence := item.evidence
  let timeHint :=
    pyOrON item.timestamp_ms
      (parseTsString (if evidence ≠ [] then firstEvidenceT evidence else none))
  { type := "action"
    title := (pyOrOpt (pyOrOpt item.task item.action) (some "")).getD ""
    owner := pyOrOpt item.owner item.assignee
    people := if truthyOS item.assignee then [item.owner, item.assignee] else [item.owner]
    deadline := pyOrOpt item.deadline item.due_date
    status := item.status
    evidence := evidence
    time_hint_ms := timeHint }

/-- Python `xs or [y]` for an optional list of optional names. -/
def listOrSingleton (xs : Option (List (Option String))) (y : Option String) :
    List (Option String) :=
  match xs with
  | some l => if l ≠ [] then l else [y]
  | none => [y]

/-- The `add_outcome` argument list produced from one achievement. -/
def achievementArgs (item : AchRec) : OutcomeArgs :=
  let evidence := item.evidence
  let members := listOrSingleton item.members item.member
  { type := "achievement"
    title := (pyOrOpt item.achievement (some "")).getD ""
    owner := none
    people := if members ≠ [] then members else []
    deadline := none
    status := none
    evidence := evidence
    time_hint_ms := if evidence ≠ [] then parseTsString (firstEvidenceT evidence) else none }

/-- The `add_outcome` argument list produced from one blocker. -/
def blockerArgs (item : BlockRec) : OutcomeArgs :=
  let evidence := item.evidence
  let people := listOrSingleton item.affected_members item.member
  { type := "blocker"
    title := (pyOrOpt item.blocker (some "")).getD ""
    owner := item.owner
    people := if people ≠ [] then people else []
    deadline := none
    status := none
    evidence := evidence
    time_hint_ms := if evidence ≠ [] then parseTsString (firstEvidenceT evidence) else none }

/-- `_extract_outcomes`: action items, then achievements, then blockers. -/
def extractOutcomes (inp : BuilderInput) : List Outcome :=
  addOutcomes 1
    (inp.action_items.map actionArgs
      ++ inp.achievements.map achievementArgs
      ++ inp.blockers.map blockerArgs)

/-! ## `_ensure_participation_claims` -/

/-- The attendance filler claim for one missing participant, given the current
claim-list length. -/
def fillerClaim (nClaims : Nat) (participant : String) : Claim :=
  { id := "claim-" ++ pad3 (nClaims + 1)
    text := participant ++
      " attended the meeting; no direct contributions were captured in the transcript."
    source := "Attendance"
    chapter_id := none
    chapter_title := none
    participants := [participant]
    time_hint_ms := none
    confidence := 550
    theme_id := none }

/-- Append filler claims one by one (ids use the growing list length). -/
def appendFillers (claims : List Claim) : List String → List Claim
  | [] => claims
  | p :: rest => appendFillers (claims ++ [fillerClaim claims.length p]) rest

/-- `_ensure_participation_claims`. -/
def ensureParticipationClaims (roster : List String) (claims : List Claim)
    (outcomes : List Outcome) : List Claim :=
  let mentioned :=
    (claims.map (·.participants)).flatten
      ++ ((outcomes.map (·.people)).flatten.filter truthyS)
  if roster = [] then claims
  else appendFillers claims (roster.filter (fun p => ¬ mentioned.contains p))

/-! ## TF-IDF vocabulary fitting

`TfidfVectorizer(stop_words="english", ngram_range=(1, 2), min_df=1,
max_df=0.9)`.  Only the vocabulary-building part is embedded: it decides
whether `fit_transform` raises (`empty vocabulary` when no terms survive
tokenisation and stop-word removal, `no terms remain` when `max_df` pruning
removes everything — with one document, `max_df=0.9` prunes every term).
The resulting feature-name list (sorted, as scikit-learn sorts the
vocabulary) also feeds the cluster-count clamp. -/

/-- scikit-learn's `ENGLISH_STOP_WORDS` frozen set. -/
def englishStopWords : List String :=
  ["a", "about", "above", "across", "after", "afterwards", "again", "against",
   "all", "almost", "alone", "along", "already", "also", "although", "always",
   "am", "among", "amongst", "amoungst", "amount", "an", "and", "another",
   "any", "anyhow", "anyone", "anything", "anyway", "anywhere", "are",
   "around", "as", "at", "back", "be", "became", "because", "become",
   "becomes", "becoming", "been", "before", "beforehand", "behind", "being",
   "below", "beside", "besides", "between", "beyond", "bill", "both",
   "bottom", "but", "by", "call", "can", "cannot", "cant", "co", "con",
   "could", "couldnt", "cry", "de", "describe", "detail", "do", "done",
   "down", "due", "during", "each", "eg", "eight", "either", "eleven",
   "else", "elsewhere", "empty", "enough", "etc", "even", "ever", "every",
   "everyone", "everything", "everywhere", "except", "few", "fifteen",
   "fifty", "fill", "find", "fire", "first", "five", "for", "former",
   "formerly", "forty", "found", "four", "from", "front", "full", "further",
   "get", "give", "go", "had", "has", "hasnt", "have", "he", "hence", "her",
   "here", "hereafter", "hereby", "herein", "hereupon", "hers", "herself",
   "him", "himself", "his", "how", "however", "hundred", "i", "ie", "if",
   "in", "inc", "indeed", "interest", "into", "is", "it", "its", "itself",
   "keep", "last", "latter", "latterly", "least", "less", "ltd", "made",
   "many", "may", "me", "meanwhile", "might", "mill", "mine", "more",
   "moreover", "most", "mostly", "move", "much", "must", "my", "myself",
   "name", "namely", "neither", "never", "nevertheless", "next", "nine",
   "no", "nobody", "none", "noone", "nor", "not", "nothing", "now",
   "nowhere", "of", "off", "often", "on", "once", "one", "only", "onto",
   "or", "other", "others", "otherwise", "our", "ours", "ourselves", "out",
   "over", "own", "part", "per", "perhaps", "please", "put", "rather", "re",
   "same", "see", "seem", "seemed", "seeming", "seems", "serious", "several",
   "she", "should", "show", "side", "since", "sincere", "six", "sixty", "so",
   "some", "somehow", "someone", "something", "sometime", "sometimes",
   "somewhere", "still", "such", "system", "take", "ten", "than", "that",
   "the", "their", "them", "themselves", "then", "thence", "there",
   "thereafter", "thereby", "therefore", "therein", "thereupon", "these",
   "they", "thick", "thin", "third", "this", "those", "though", "three",
   "through", "throughout", "thru", "thus", "to", "together", "too", "top",
   "toward", "towards", "twelve", "twenty", "two", "un", "under", "until",
   "up", "upon", "us", "very", "via", "was", "we", "well", "were", "what",
   "whatever", "when", "whence", "whenever", "where", "whereafter",
   "whereas", "whereby", "wherein", "whereupon", "wherever", "whether",
   "which", "while", "whither", "who", "whoever", "whole", "whom", "whose",
   "why", "will", "with", "within", "without", "would", "yet", "you",
   "your", "yours", "yourself", "yourselves"]

/-- Maximal runs of chars satisfying `p`; `cur` is the current run reversed. -/
def runsBy (p : Char → Bool) : List Char → List Char → List (List Char)
  | [], cur => if cur = [] then [] else [cur.reverse]
  | c :: rest, cur =>
      if p c then runsBy p rest (c :: cur)
      else if cur = [] then runsBy p rest []
      else cur.reverse :: runsBy p rest []

/-- scikit-learn's default `token_pattern` `(?u)\b\w\w+\b` on the lowercased
document: maximal word-char runs of length at least 2. -/
def sklearnTokens (doc : String) : List String :=
  ((runsBy isWordC (pyLower doc).data []).filter (fun r => r.length ≥ 2)).map String.mk

/-- `_word_ngrams` for `ngram_range=(1, 2)`: stop words are removed first,
then unigrams plus bigrams of the remaining sequence. -/
def docNgrams (doc : String) : List String :=
  let toks := (sklearnTokens doc).filter (fun w => ¬ englishStopWords.contains w)
  toks ++ (toks.zip toks.tail).map (fun p => p.1 ++ " " ++ p.2)

/-- Lexicographic comparison of char lists by code point (Python string
order on ASCII input). -/
def charListLe : List Char → List Char → Bool
  | [], _ => true
  | _ :: _, [] => false
  | a :: as, b :: bs =>
      if a.toNat < b.toNat then true
      else if a.toNat = b.toNat then charListLe as bs
      else false

/-- Python `str` ordering. -/
def strLe (a b : String) : Bool := charListLe a.data b.data

/-- Insertion sort on strings (ascending code-point order), used for the
sorted vocabulary. -/
def insertSorted (x : String) : List String → List String
  | [] => [x]
  | y :: rest => if strLe x y then x :: y :: rest else y :: insertSorted x rest

/-- Sort strings ascending. -/
def sortStrings (l : List String) : List String :=
  l.foldr insertSorted []

/-- Vocabulary fitting.  `none` models the `ValueError`s `fit_transform`
raises: an empty vocabulary, or no terms remaining after `max_df` pruning
(`df ≤ 0.9 * n_docs`, i.e. `10 * df ≤ 9 * n`; `min_df = 1` never prunes).
`some names` is the sorted feature-name list. -/
def fitVocabulary (texts : List String) : Option (List String) :=
  let docSets := texts.map (fun t => (docNgrams t).dedup)
  let vocab := (docSets.flatten).dedup
  if vocab = [] then none
  else
    let n := texts.length
    let kept := vocab.filter (fun term =>
      10 * (docSets.filter (fun d => d.contains term)).length ≤ 9 * n)
    if kept = [] then none else some (sortStrings kept)

/-! ## The numeric oracle

`KMeans(n_clusters, n_init="auto", random_state=42).fit_predict`, the
centroid top-terms, and the cosine-similarity argmax of `_attach` are
floating-point computations.  They are abstracted as a record of functions;
everything downstream of their results is embedded exactly.  `KMOracle.Valid`
states the interface facts scikit-learn guarantees (labels are per-sample and
below the cluster count; `np.argmax` over one similarity per theme is a valid
theme index). -/

structure KMOracle where
  /-- `fit_predict`: cluster label per text, given the cluster count. -/
  labels : List String → Nat → List Nat
  /-- Centroid top terms for one cluster: the up-to-6 strictly-positive-weight
  feature names, by descending centroid weight (`argsort()[-6:][::-1]`). -/
  keywords : List String → List Nat → List String
  /-- `_attach`: `(argmax cosine-similarity index, best score < 0.12)` for an
  outcome title against the per-theme aggregate texts; the `ValueError` fall
  back of the Python is modelled as `(0, true)`. -/
  simPick : String → List String → Nat × Bool

/-- Interface facts about the abstracted scikit-learn calls. -/
def KMOracle.Valid (o : KMOracle) : Prop :=
  (∀ texts k, (o.labels texts k).length = texts.length) ∧
  (∀ texts k, 0 < k → ∀ l ∈ o.labels texts k, l < k) ∧
  (∀ title themeTexts, themeTexts ≠ [] → (o.simPick title themeTexts).1 < themeTexts.length)

/-- A trivial oracle instance (used to instantiate closed statements whose
conclusion does not depend on the oracle's numeric choices). -/
def kmTrivial : KMOracle :=
  { labels := fun texts _ => List.replicate texts.length 0
    keywords := fun _ _ => []
    simPick := fun _ _ => (0, true) }

/-! ## `_cluster_claims_into_themes` -/

/-- The default theme used for the empty-claims case and the dead-code
fallback (`Theme(id="theme-001", label="Key Topics", ...)`). -/
def defaultTheme (indices : List Nat) : Theme :=
  { id := "theme-001", label := "Key Topics", claim_indices := indices,
    outcome_ids := [], chapters := [], keywords := [], score := 0 }

/-- Python `str.title()` on ASCII: uppercase a letter whose predecessor is
not a letter, lowercase the rest. -/
def pyTitleAux : Bool → List Char → List Char
  | _, [] => []
  | prevAlpha, c :: rest =>
      (if c.isAlpha then (if prevAlpha then c.toLower else c.toUpper) else c)
        :: pyTitleAux c.isAlpha rest

/-- Python `str.title()`. -/
def pyTitle (s : String) : String :=
  String.mk (pyTitleAux false s.data)

/-- `kw.replace("-", " ").title()`. -/
def prettyKeyword (kw : String) : String :=
  pyTitle (String.mk (kw.data.map (fun c => if c = '-' then ' ' else c)))

/-- The theme label derived from cluster keywords. -/
def themeLabel (clusterIdx : Nat) (keywords : List String) : String :=
  let pretty := (keywords.take 3).map prettyKeyword
  if pretty ≠ [] then " / ".intercalate pretty else "Theme " ++ natToDec (clusterIdx + 1)

/-- The cluster count chosen for `n ≥ 4` claims, after every clamp. -/
def nClustersFor (maxVisible n nFeatures : Nat) : Nat :=
  let k0 := min (maxVisible + 2) (max 2 (n / 4))
  let k1 := min k0 n
  let k2 := if nFeatures < k1 then max 1 nFeatures else k1
  if k2 = 0 then 1 else k2

/-- Build the theme for one cluster index (`None` when the cluster is empty,
mirroring the `continue`). -/
def clusterTheme (oracle : KMOracle) (texts : List String) (labels : List Nat)
    (clusterIdx : Nat) : Option Theme :=
  let claimIndices := ((labels.enum).filter (fun p => p.2 = clusterIdx)).map (·.1)
  if claimIndices = [] then none
  else
    let keywords := oracle.keywords texts claimIndices
    some
      { id := "theme-" ++ pad3 (clusterIdx + 1)
        label := themeLabel clusterIdx keywords
        claim_indices := claimIndices
        outcome_ids := []
        chapters := []
        keywords := keywords.take 5
        score := 1000 * claimIndices.length }

/-- Stable insertion (descending by score): a new element goes after every
element whose score is at least as large, matching Python's stable
`sorted(key=..., reverse=True)`. -/
def insertByScoreDesc (t : Theme) : List Theme → List Theme
  | [] => [t]
  | h :: rest => if h.score ≥ t.score then h :: insertByScoreDesc t rest else t :: h :: rest

/-- Stable sort of themes by descending score. -/
def sortThemesDesc (l : List Theme) : List Theme :=
  l.foldl (fun acc t => insertByScoreDesc t acc) []

/-- Default `Claim` used only as the out-of-range placeholder for list
indexing (Python raises `IndexError` there; the pipeline never indexes out of
range, and theorems that need it carry the in-range hypothesis). -/
def defaultClaim : Claim :=
  { id := "", text := "", source := "", chapter_id := none, chapter_title := none,
    participants := [], time_hint_ms := none, confidence := 0, theme_id := none }

/-- Recompute a theme's chapter set from its member claims (the loop shared
by the clustering stage and the final step of rebalancing). -/
def chaptersRecompute (claims : List Claim) (t : Theme) : Theme :=
  { t with chapters := (t.claim_indices.filterMap (fun i =>
      let c := claims.getD i defaultClaim
      if truthyOS c.chapter_id then some (c.chapter_id.getD "") else none)).dedup }


/-- The result of the clustering stage. -/
structure ClusterResult where
  claims : List Claim
  themes : List Theme
  /-- `self.vectorizer` (`some` feature names iff a vectorizer was fitted). -/
  features : Option (List String)
deriving Repr

/-- `_cluster_claims_into_themes`.  `Except.error` models the uncaught
`ValueError` from `fit_transform`; everything else is total. -/
def clusterClaimsIntoThemes (maxVisible : Nat) (oracle : KMOracle)
    (claims : List Claim) : Except String ClusterResult :=
  if claims = [] then
    .ok { claims := claims, themes := [defaultTheme []], features := none }
  else
    let texts := claims.map (·.text)
    match fitVocabulary texts with
    | none => .error "ValueError: empty vocabulary or no terms remain after pruning"
    | some featureNames =>
      let n := claims.length
      let labels :=
        if n < 4 then List.replicate n 0
        else oracle.labels texts (nClustersFor maxVisible n featureNames.length)
      let maxLabel := labels.foldl max 0
      let themesInOrder :=
        ((List.range (maxLabel + 1)).map (clusterTheme oracle texts labels)).reduceOption
      -- assign theme ids back to claims (`enumerate(labels)` indexes claims)
      let claims' := (claims.zip (labels.map some ++
          List.replicate (claims.length - labels.length) none)).map
        (fun p =>
          match p.2 with
          | some l =>
            match clusterTheme oracle texts labels l with
            | some t => { p.1 with theme_id := some t.id }
            | none => p.1
          | none => p.1)
      -- chapter coverage per theme, gathered from its member claims in order
      let themes := themesInOrder.map (chaptersRecompute claims')
      let sortedThemes := sortThemesDesc themes
      if sortedThemes = [] then
        .ok { claims := claims'.map (fun c => { c with theme_id := some "theme-001" }),
              themes := [defaultTheme (List.range n)],
              features := some featureNames }
      else
        .ok { claims := claims', themes := sortedThemes, features := some featureNames }

/-! ## `_attach_outcomes_to_themes`

The loop mutates only `outcome.theme_id`, `theme.outcome_ids` and
`theme.score`, none of which feed back into later choices (the aggregate
theme texts are precomputed), so it is embedded as one choice function per
outcome plus a bulk update. -/

/-- Aggregated claim text per theme (or the label for claimless themes). -/
def themeTextsOf (claims : List Claim) (themes : List Theme) : List String :=
  themes.map (fun t =>
    if t.claim_indices ≠ [] then
      " ".intercalate (t.claim_indices.map (fun i => (claims.getD i defaultClaim).text))
    else t.label)

/-- `participant_mentions` accumulated over one theme's claims. -/
def participantMentions (claims : List Claim) (o : Outcome) (t : Theme) : Nat :=
  t.claim_indices.foldl
    (fun acc ci => acc + interCard o.people (claims.getD ci defaultClaim).participants) 0

/-- Python `max` over `(mentions, idx)` tuples: lexicographic, and since the
indices are distinct the maximum is unique. -/
def pyMaxPairs (l : List (Nat × Nat)) : Nat × Nat :=
  match l with
  | [] => (0, 0)
  | h :: t =>
      t.foldl (fun a b => if a.1 < b.1 ∨ (a.1 = b.1 ∧ a.2 < b.2) then b else a) h

/-- The theme index chosen for one outcome. -/
def attachChoice (oracle : KMOracle) (features : Option (List String))
    (claims : List Claim) (themes : List Theme) (themeTexts : List String)
    (o : Outcome) : Nat :=
  let pick := if features.isSome then oracle.simPick o.title themeTexts else (0, true)
  if pick.2 then
    let pscores := themes.enum.map (fun p => (participantMentions claims o p.2, p.1))
    let best := pyMaxPairs pscores
    if pscores ≠ [] ∧ best.1 > 0 then best.2 else pick.1
  else pick.1

/-- `_attach_outcomes_to_themes`. -/
def attachOutcomesToThemes (oracle : KMOracle) (features : Option (List String))
    (claims : List Claim) (outcomes : List Outcome) (themes : List Theme) :
    List Outcome × List Theme :=
  if themes = [] then (outcomes, themes)
  else
    let tts := themeTextsOf claims themes
    let choices := outcomes.map
      (fun o => (o, attachChoice oracle features claims themes tts o))
    (choices.map (fun p =>
        { p.1 with theme_id := some ((themes.getD p.2 (defaultTheme [])).id) }),
      themes.enum.map (fun q =>
        let assignedIds := (choices.filter (fun p => p.2 = q.1)).map (fun p => p.1.id)
        { q.2 with
            outcome_ids := q.2.outcome_ids ++ assignedIds
            score := q.2.score + 1500 * assignedIds.length }))

/-! ## `_rebalance_theme_visibility` -/

/-- Themes with at least one claim or one outcome. -/
def populatedThemes (themes : List Theme) : List Theme :=
  themes.filter (fun t => t.claim_indices ≠ [] ∨ t.outcome_ids ≠ [])

/-- The synthetic overflow theme folded from the given overflow themes. -/
def mergedTheme (overflow : List Theme) : Theme :=
  { id := "theme-more", label := "More Topics"
    claim_indices := (overflow.map (fun t => t.claim_indices)).flatten
    outcome_ids := (overflow.map (fun t => t.outcome_ids)).flatten
    chapters := ((overflow.map (fun t => t.chapters)).flatten).dedup
    keywords := ["miscellaneous", "additional"]
    score := (overflow.map (fun t => t.score)).foldl (· + ·) 0 }

/-- The visibility-cap step of rebalancing: keep the top-`cap` themes by
score and fold the rest into the synthetic "More Topics" theme, re-pointing
the folded claims' and outcomes' `theme_id`s. -/
def capFold (cap : Nat) (claims : List Claim) (outcomes : List Outcome)
    (themes1 : List Theme) : List Claim × List Outcome × List Theme :=
  if themes1.length > cap then
    let sorted := sortThemesDesc themes1
    let keep := sorted.take cap
    let overflow := sorted.drop cap
    if overflow ≠ [] then
      let merged := mergedTheme overflow
      ((claims.enum).map (fun p =>
          if merged.claim_indices.contains p.1 then { p.2 with theme_id := some "theme-more" }
          else p.2),
        outcomes.map (fun o =>
          if merged.outcome_ids.contains o.id then { o with theme_id := some "theme-more" }
          else o),
        keep ++ (if merged.claim_indices ≠ [] ∨ merged.outcome_ids ≠ []
                 then [merged] else []))
    else (claims, outcomes, keep)
  else (claims, outcomes, themes1)

/-- `_rebalance_theme_visibility` (see the section comment above). -/
def rebalanceThemeVisibility (cap : Nat) (claims : List Claim)
    (outcomes : List Outcome) (themes : List Theme) :
    List Claim × List Outcome × List Theme :=
  if themes = [] then (claims, outcomes, themes)
  else
    let populated := populatedThemes themes
    let themes1 := if populated = [] then themes.take 1 else populated
    let folded := capFold cap claims outcomes themes1
    (folded.1, folded.2.1, folded.2.2.map (chaptersRecompute folded.1))

/-! ## `_export_graph` -/

/-- An exported node.  `timestamp = none` models the Python dict simply not
carrying the key (theme and chapter nodes) or carrying `None`. -/
structure GNode where
  id : String
  label : String
  type : String
  parent_id : String
  description : String
  timestamp : Option String
  confidence : Milli
deriving DecidableEq, Repr

/-- Placeholder node for out-of-range list access in statements. -/
def defaultGNode : GNode :=
  { id := "", label := "", type := "", parent_id := "", description := "",
    timestamp := none, confidence := 0 }

/-- The `center_node`. -/
structure CenterNode where
  id : String
  label : String
  type : String
deriving DecidableEq, Repr

/-- An explicit edge; the exported `edges` list is always empty. -/
structure Edge where
  source : String
  target : String
deriving DecidableEq, Repr

/-- The exported graph. -/
structure Graph where
  center_node : CenterNode
  nodes : List GNode
  edges : List Edge
  metaThemes : Nat
  metaClaims : Nat
  metaOutcomes : Nat
deriving DecidableEq, Repr

/-- `_describe_claim`. -/
def describeClaim (c : Claim) : String :=
  let parts :=
    [c.text]
    ++ (if truthyS c.source then ["Source: " ++ c.source] else [])
    ++ (if c.participants ≠ [] then
          ["Participants: " ++ ", ".intercalate (sortStrings c.participants.dedup)]
        else [])
    ++ (match c.time_hint_ms with
        | some ms => ["Timing: " ++ fmtLocal ms]
        | none => [])
  " | ".intercalate parts

/-- `_outcome_label`. -/
def outcomeLabel (o : Outcome) : String :=
  let pfx :=
    if o.type = "action" then "Action"
    else if o.type = "achievement" then "Win"
    else if o.type = "blocker" then "Blocker"
    else if o.type = "decision" then "Decision"
    else "Outcome"
  pfx ++ ": " ++ strTake o.title 70 ++ (if o.title.length > 70 then "…" else "")

/-- `theme_summary` inside `_export_graph`. -/
def themeSummary (claims : List Claim) (outcomes : List Outcome) (t : Theme) : String :=
  let highlightClaims :=
    (t.claim_indices.take 3).map (fun i => (claims.getD i defaultClaim).text)
  let highlightOutcomes :=
    ((outcomes.filter (fun o => t.outcome_ids.contains o.id)).map
        Outcome.description).take 2
  let pieces :=
    (if highlightClaims ≠ [] then ["Key points: " ++ " ".intercalate highlightClaims]
     else [])
    ++ (if highlightOutcomes ≠ [] then
          ["Outcomes: " ++ " ".intercalate highlightOutcomes]
        else [])
  if pieces ≠ [] then strTake (" ".intercalate pieces) 500 else ""

/-- `chapter_lookup` access: Python dict comprehension keyed by
`chapter_id`, later records overwriting earlier ones. -/
def chapterRecFor (chapters : List ChapterRec) (cid : Option String) :
    Option ChapterRec :=
  (chapters.reverse).find? (fun c => c.chapter_id = cid)

/-- State threaded through the claim-export loop: nodes so far plus the
`chapters_seen` association (`(theme id, chapter id) ↦ node id`). -/
abbrev SeenMap := List ((String × String) × String)

/-- Lookup in `chapters_seen`. -/
def seenLookup (seen : SeenMap) (key : String × String) : Option String :=
  (seen.find? (fun p => p.1 = key)).map (·.2)

/-- The chapter node created for a (theme, chapter) pair. -/
def chapterNodeOf (inpChapters : List ChapterRec) (t : Theme) (cidS : String) : GNode :=
  let chRec := chapterRecFor inpChapters (some cidS)
  let chTitle :=
    match chRec with
    | some c => cleanOpt c.title
    | none => "Chapter"
  let chDesc :=
    match chRec with
    | some c => cleanOpt c.summary
    | none => ""
  { id := t.id ++ "-chapter-" ++ slugify cidS "chapter"
    label := pyOrS chTitle "Chapter"
    type := "chapter"
    parent_id := t.id
    description := if truthyS chDesc then strTake chDesc 400 else ""
    timestamp := none
    confidence := 650 }

/-- The claim node for one claim. -/
def claimNodeOf (claim : Claim) (parentId : String) : GNode :=
  { id := claim.id
    label := strTake claim.text 80 ++ (if claim.text.length > 80 then "…" else "")
    type := "claim"
    parent_id := parentId
    description := describeClaim claim
    timestamp := formatMs claim.time_hint_ms
    confidence := min 950 claim.confidence }

/-- One iteration of the claim loop: resolve (creating if needed) the chapter
parent node, then append the claim node. -/
def claimNodeStep (inpChapters : List ChapterRec) (claims : List Claim) (t : Theme)
    (acc : List GNode × SeenMap) (ci : Nat) : List GNode × SeenMap :=
  let claim := claims.getD ci defaultClaim
  let step :=
    if truthyOS claim.chapter_id then
      let cidS := claim.chapter_id.getD ""
      let key := (t.id, cidS)
      match seenLookup acc.2 key with
      | some nid => (nid, acc.1, acc.2)
      | none =>
        let chNode := chapterNodeOf inpChapters t cidS
        (chNode.id, acc.1 ++ [chNode], acc.2 ++ [(key, chNode.id)])
    else (t.id, acc.1, acc.2)
  (step.2.1 ++ [claimNodeOf claim step.1], step.2.2)

/-- Export the claim (and on-demand chapter) nodes of one theme. -/
def exportClaimNodes (inpChapters : List ChapterRec) (claims : List Claim)
    (t : Theme) (seen : SeenMap) : List GNode × SeenMap :=
  t.claim_indices.foldl (claimNodeStep inpChapters claims t) (([] : List GNode), seen)

/-- The outcome nodes living directly under one theme. -/
def exportOutcomeNodes (outcomes : List Outcome) (t : Theme) : List GNode :=
  (outcomes.filter (fun o => o.theme_id = some t.id)).map (fun o =>
    { id := o.id
      label := outcomeLabel o
      type := o.type
      parent_id := t.id
      description := strTake o.description 500
      timestamp := formatMs o.time_hint_ms
      confidence := min 950 o.confidence })

/-- The top-level node for one theme. -/
def themeNodeOf (claims : List Claim) (outcomes : List Outcome) (t : Theme) : GNode :=
  { id := t.id
    label := t.label
    type := "theme"
    parent_id := "root"
    description := themeSummary claims outcomes t
    timestamp := none
    confidence := min 950 (600 + t.score / 20) }

/-- The node list contributed by one theme. -/
def exportThemeBlock (inpChapters : List ChapterRec) (claims : List Claim)
    (outcomes : List Outcome) (t : Theme) (seen : SeenMap) :
    List GNode × SeenMap :=
  (themeNodeOf claims outcomes t :: (exportClaimNodes inpChapters claims t seen).1
      ++ exportOutcomeNodes outcomes t,
    (exportClaimNodes inpChapters claims t seen).2)

/-- One step of the theme loop in `_export_graph`. -/
def exportStep (chs : List ChapterRec) (claims : List Claim)
    (outcomes : List Outcome) (acc : List GNode × SeenMap) (t : Theme) :
    List GNode × SeenMap :=
  let block := exportThemeBlock chs claims outcomes t acc.2
  (acc.1 ++ block.1, block.2)

/-- `_export_graph`. -/
def exportGraph (inp : BuilderInput) (claims : List Claim)
    (outcomes : List Outcome) (themes : List Theme) : Graph :=
  let center : CenterNode :=
    { id := "root"
      label := pyOrS (cleanText (inp.title.getD "")) "Meeting Mindmap"
      type := "root" }
  let result := themes.foldl (exportStep inp.chapters claims outcomes)
    (([] : List GNode), ([] : SeenMap))
  { center_node := center
    nodes := result.1
    edges := []
    metaThemes := themes.length
    metaClaims := claims.length
    metaOutcomes := outcomes.length }

/-! ## `build` -/

/-- `CoverageMindmapBuilder.build`, parameterised by `max_visible_themes`
(default 7 in the Python) and the numeric oracle. -/
def buildMindmap (cap : Nat) (oracle : KMOracle) (inp : BuilderInput) :
    Except String Graph :=
  let roster := rosterOf inp
  let claims0 := extractClaims inp
  let outcomes0 := extractOutcomes inp
  let claims1 := ensureParticipationClaims roster claims0 outcomes0
  match clusterClaimsIntoThemes cap oracle claims1 with
  | .error e => .error e
  | .ok cr =>
    let attached := attachOutcomesToThemes oracle cr.features cr.claims outcomes0 cr.themes
    let rebal := rebalanceThemeVisibility cap cr.claims attached.1 attached.2
    .ok (exportGraph inp rebal.1 rebal.2.1 rebal.2.2)

/-! ## Specification-side definitions (for refinement statements only)

`specTimeHint` transcribes the spec's words for timestamp selection
(section 4.2): score every entry, pick the highest-scoring one with ties
broken by first-encountered scan order, accept only if the score reaches 2.
It is compared against the source-derived `matchTimeHint`. -/

/-- The spec's timestamp-selection rule. -/
def specTimeHint (entries : List TLEntry) (text : String)
    (participants : List String) : Option Nat :=
  let tokens := tokenize text
  let pset := (participants.map pyLower).dedup
  let m := (entries.map (entryScore tokens pset)).foldl max 0
  if m ≥ 2 then (entries.find? (fun e => entryScore tokens pset e = m)).bind (·.timestamp_ms)
  else none

/-! ## Timestamp format checkers -/

/-- Does the string have the exact shape `HH:MM:SS` (two digits each)? -/
def isHHMMSS (s : String) : Bool :=
  match s.data with
  | [h1, h2, c1, m1, m2, c2, s1, s2] =>
      c1 = ':' && c2 = ':' && [h1, h2, m1, m2, s1, s2].all Char.isDigit
  | _ => false

/-- Does the string have the shape `H⁺:MM:SS.mmm` (at least two hour digits,
two minute digits, two second digits, exactly three millisecond digits)? -/
def isTsMMM (s : String) : Bool :=
  let hs := s.data.takeWhile Char.isDigit
  let rest := s.data.dropWhile Char.isDigit
  decide (hs.length ≥ 2) &&
    (match rest with
     | ':' :: m1 :: m2 :: ':' :: s1 :: s2 :: '.' :: r1 :: r2 :: r3 :: [] =>
         [m1, m2, s1, s2, r1, r2, r3].all Char.isDigit
     | _ => false)

/-! ## Aggregates used by the rebalancing claims -/

/-- Total number of claim slots across a theme list. -/
def sumClaims (themes : List Theme) : Nat :=
  (themes.map (fun t => t.claim_indices.length)).sum

/-- Total number of outcome slots across a theme list. -/
def sumOutcomes (themes : List Theme) : Nat :=
  (themes.map (fun t => t.outcome_ids.length)).sum

/-! ## Id-shape predicates (pipeline invariants used by the export claims) -/

/-- Theme ids produced by the pipeline: `"theme-" ++ r` with `r` nonempty and
hyphen-free (`theme-007`, `theme-more`). -/
def ThemeIdForm (id : String) : Prop :=
  ∃ r : List Char, id.data = "theme-".data ++ r ∧ r ≠ [] ∧ '-' ∉ r

/-- Claim ids produced by the pipeline start with `c` (`claim-012`). -/
def ClaimIdForm (id : String) : Prop :=
  ∃ r : List Char, id.data = 'c' :: r

/-- Outcome ids produced by the pipeline start with `o` (`outcome-003`). -/
def OutIdForm (id : String) : Prop :=
  ∃ r : List Char, id.data = 'o' :: r

/-- A node's parent pointer is well formed relative to a node list: it is the
root, or the id of a theme or chapter node present in the list. -/
def parentOk (ns : List GNode) (n : GNode) : Prop :=
  n.parent_id = "root"
    ∨ ∃ p ∈ ns, p.id = n.parent_id ∧ (p.type = "theme" ∨ p.type = "chapter")

/-! ## Concrete inputs and states for the closed statements -/

/-- Input whose only participant is referenced solely through an outcome's
`people` list (an achievement's `members`): the coverage pass treats the
participant as mentioned, yet no exported node renders the name. -/
def c1CoverageInput : BuilderInput :=
  { title := some "Sync"
    participants := ["Dana"]
    narrative_summary := ""
    chapters := []
    action_items := []
    achievements := [{ achievement := some "Win x y", member := none,
                       members := some [some "Dana"], evidence := [] }]
    blockers := []
    timeline := [] }

/-- The outcome as attached on `c1CoverageInput` (intermediate literal used
to stage the evaluation). -/
def c1OutA : Outcome :=
  { id := "outcome-001", type := "achievement", title := "Win x y", owner := none,
    people := ["Dana"], deadline := none, status := none, evidence := [], time_hint_ms := none,
    confidence := 750, theme_id := some "theme-001" }

/-- The theme as attached on `c1CoverageInput` (intermediate literal). -/
def c1ThemeA : Theme :=
  { id := "theme-001", label := "Key Topics", claim_indices := [], outcome_ids := ["outcome-001"],
    chapters := [], keywords := [], score := 1500 }

/-- Node label/description avoids a participant name. -/
def nodeAvoids (p : String) (n : GNode) : Bool :=
  !(pyIn p n.label || pyIn p n.description)

/-- Input producing exactly one claim: with one document every TF-IDF term
has document frequency 1 > 0.9 × 1, so `max_df` pruning empties the
vocabulary and `fit_transform` raises. -/
def c5SingleClaimInput : BuilderInput :=
  { title := none
    participants := []
    narrative_summary := "Alice shipped the new release yesterday."
    chapters := []
    action_items := []
    achievements := []
    blockers := []
    timeline := [] }

/-- Input with a single action item carrying a 2000 ms timestamp; the
exported outcome node's timestamp is `"00:00:02.000"`. -/
def c7TimestampInput : BuilderInput :=
  { title := none
    participants := []
    narrative_summary := ""
    chapters := []
    action_items := [{ task := some "Ship the fix", action := none, owner := none,
                       assignee := none, deadline := none, due_date := none, status := none,
                       evidence := [], timestamp_ms := some 2000 }]
    achievements := []
    blockers := []
    timeline := [] }

/-- Input with two chapters whose distinct `chapter_id`s (`"ch a"` and
`"ch-a"`) slugify identically; each contributes one claim, both claims land
in the single theme (fewer than 4 claims), and the two chapter nodes collide
on id `theme-001-chapter-ch-a`. -/
def c9SlugCollisionInput : BuilderInput :=
  { title := some "Slug Crash"
    participants := []
    narrative_summary := ""
    chapters := [{ chapter_id := some "ch a", title := some "Alpha",
                   summary := some "Alpha bravo charlie delta echo." },
                 { chapter_id := some "ch-a", title := some "Beta",
                   summary := some "Foxtrot golf hotel india juliet." }]
    action_items := []
    achievements := []
    blockers := []
    timeline := [] }

/-- One of nine one-claim themes used for the theme-cap counterexample
(scores cycle through 1, 2, 3 to exercise the stable sort). -/
def c2Theme (i : Nat) : Theme :=
  { id := "theme-" ++ pad3 (i + 1)
    label := "T" ++ natToDec (i + 1)
    claim_indices := [i]
    outcome_ids := []
    chapters := []
    keywords := []
    score := 1000 * (1 + i % 3) }

/-- The claim pool backing `c2Theme`. -/
def c2Claim (i : Nat) : Claim :=
  { id := "claim-" ++ pad3 (i + 1)
    text := "claim text number " ++ natToDec (i + 1) ++ " body"
    source := "Executive Narrative"
    chapter_id := none
    chapter_title := none
    participants := []
    time_hint_ms := none
    confidence := 700
    theme_id := some ("theme-" ++ pad3 (i + 1)) }

/-- Nine populated themes entering rebalancing with `max_visible_themes = 7`
(reachable: the clustering stage requests up to `max_visible_themes + 2 = 9`
clusters, each yielding one populated theme). -/
def c2Themes : List Theme := (List.range 9).map c2Theme

/-- The nine claims backing `c2Themes`. -/
def c2Claims : List Claim := (List.range 9).map c2Claim

/-- A minimal input shell for state-level export statements. -/
def plainInput : BuilderInput :=
  { title := some "Meeting"
    participants := []
    narrative_summary := ""
    chapters := []
    action_items := []
    achievements := []
    blockers := []
    timeline := [] }

/-- Concrete timeline entries for the time-hint witness. -/
def c8Entries : List TLEntry :=
  [{ timestamp_ms := some 60000,
     tokens := tokenize "Alice Smith roadmap quarterly presented discussion",
     speakers := ["Alice Smith"] },
   { timestamp_ms := some 120000,
     tokens := tokenize "api deadline concerns raised",
     speakers := ["Bob"] },
   { timestamp_ms := some 240000,
     tokens := tokenize "incidents reviewed carefully team",
     speakers := [] }]

/-- A chapter id string occurring (truthily) among the claims. -/
def occursChapterId (claims : List Claim) (c : String) : Prop :=
  ∃ cl ∈ claims, truthyOS cl.chapter_id = true ∧ cl.chapter_id.getD "" = c

/-- Placeholder outcome for out-of-range list access in statements. -/
def defaultOutcome : Outcome :=
  { id := "", type := "", title := "", owner := none, people := [],
    deadline := none, status := none, evidence := [], time_hint_ms := none,
    confidence := 0, theme_id := none }

/-- One-theme state for the outcome-attachment witness. -/
def c4Themes : List Theme :=
  [{ id := "theme-001", label := "T", claim_indices := [], outcome_ids := [],
     chapters := [], keywords := [], score := 1000 }]

/-- One-outcome state for the outcome-attachment witness. -/
def c4Outs : List Outcome :=
  [{ id := "outcome-001", type := "action", title := "Ship", owner := none,
     people := [], deadline := none, status := none, evidence := [],
     time_hint_ms := none, confidence := 800, theme_id := none }]

/-- Timeline entries on which the code and the spec's selection rule
disagree: the highest-scoring entry carries no timestamp, so the code skips
it during the scan while the spec's rule picks it. -/
def c8DivergeEntries : List TLEntry :=
  [{ timestamp_ms := none,
     tokens := ["alpha", "bravo", "charlie"],
     speakers := [] },
   { timestamp_ms := some 5000,
     tokens := ["alpha", "bravo"],
     speakers := [] }]

/-- A small well-formed post-attach state for the export witnesses: one
ordinary theme and the synthetic overflow theme, two claims (one with a
chapter), one outcome. -/
def wfClaims : List Claim :=
  [{ id := "claim-001", text := "Alpha bravo charlie delta echo.", source := "Alpha",
     chapter_id := some "ch-01", chapter_title := some "Alpha", participants := [],
     time_hint_ms := some 2000, confidence := 700, theme_id := some "theme-001" },
   { id := "claim-002", text := "Foxtrot golf hotel india juliet.", source := "Beta",
     chapter_id := none, chapter_title := none, participants := [],
     time_hint_ms := none, confidence := 700, theme_id := some "theme-more" }]

/-- Outcomes for the export witnesses. -/
def wfOutcomes : List Outcome :=
  [{ id := "outcome-001", type := "action", title := "Do it", owner := none, people := [],
     deadline := none, status := none, evidence := [], time_hint_ms := none,
     confidence := 800, theme_id := some "theme-001" }]

/-- Themes for the export witnesses. -/
def wfThemes : List Theme :=
  [{ id := "theme-001", label := "T1", claim_indices := [0], outcome_ids := ["outcome-001"],
     chapters := ["ch-01"], keywords := [], score := 2500 },
   { id := "theme-more", label := "More Topics", claim_indices := [1], outcome_ids := [],
     chapters := [], keywords := ["miscellaneous", "additional"], score := 1 }]

/-! # Theorems -/

set_option maxRecDepth 6000

theorem kmTrivial_valid : kmTrivial.Valid := by
  refine ⟨fun texts k => by simp [kmTrivial], fun texts k hk l hl => ?_, fun t ts hts => ?_⟩
  · rcases List.eq_of_mem_replicate hl with rfl
    exact hk
  · simp only [kmTrivial]
    cases ts with
    | nil => exact absurd rfl hts
    | cons a l => simp

/-- A two-element list's `any` in terms of its elements. -/
theorem any_of_len_two {α : Type} (d : α) (f : α → Bool) (l : List α)
    (h : l.length = 2) : l.any f = (f (l.getD 0 d) || f (l.getD 1 d)) := by
  match l with
  | [a, b] => simp
  | [] => simp at h
  | [a] => simp at h
  | a :: b :: c :: r => simp at h

/-- Claim C1 (code bug, evaluation at the failing input): the spec's coverage
guarantee fails on the code.  On `c1CoverageInput` the participant `"Dana"`
is counted as mentioned by `_ensure_participation_claims` because she occurs
in an outcome's `people` list, so no attendance filler claim is synthesised —
but neither `Outcome.description` nor any exported label renders `people`,
so no node of the built graph contains `"Dana"` in its label or description.
(The zero-claims path taken here never consults the numeric oracle, so the
evaluation is exact; the staging through `c1OutA`/`c1ThemeA` only keeps each
kernel reduction shallow.) -/
theorem c1_coverage_violation_eval :
    (match buildMindmap 7 kmTrivial c1CoverageInput with
     | .ok g =>
         pyIn "Dana" g.center_node.label ||
           g.nodes.any (fun n => pyIn "Dana" n.label || pyIn "Dana" n.description)
     | .error _ => true) = false := by
  have h1 : buildMindmap 7 kmTrivial c1CoverageInput
      = .ok (exportGraph c1CoverageInput [] [c1OutA] [c1ThemeA]) := by rfl
  rw [h1]
  show (pyIn "Dana" (exportGraph c1CoverageInput [] [c1OutA] [c1ThemeA]).center_node.label ||
      (exportGraph c1CoverageInput [] [c1OutA] [c1ThemeA]).nodes.any
        (fun n => pyIn "Dana" n.label || pyIn "Dana" n.description)) = false
  have hc : pyIn "Dana"
      (exportGraph c1CoverageInput [] [c1OutA] [c1ThemeA]).center_node.label = false := by rfl
  have hlen : (exportGraph c1CoverageInput [] [c1OutA] [c1ThemeA]).nodes.length = 2 := by rfl
  rw [hc, any_of_len_two (defaultGNode)
    (fun n => pyIn "Dana" n.label || pyIn "Dana" n.description) _ hlen]
  have h0 : (pyIn "Dana"
        ((exportGraph c1CoverageInput [] [c1OutA] [c1ThemeA]).nodes.getD 0 defaultGNode).label
      || pyIn "Dana"
        ((exportGraph c1CoverageInput [] [c1OutA] [c1ThemeA]).nodes.getD 0
          defaultGNode).description) = false := by rfl
  have h2 : (pyIn "Dana"
        ((exportGraph c1CoverageInput [] [c1OutA] [c1ThemeA]).nodes.getD 1 defaultGNode).label
      || pyIn "Dana"
        ((exportGraph c1CoverageInput [] [c1OutA] [c1ThemeA]).nodes.getD 1
          defaultGNode).description) = false := by rfl
  simp only [h0, h2]
  rfl

/-- Claim C5 (counterexample): an input whose narrative yields exactly one
claim makes `TfidfVectorizer.fit_transform` raise (`max_df = 0.9` prunes
every term when there is a single document), and the exception propagates
out of `build()` instead of being handled — contradicting the claim that
vectorizer edge cases are never propagated. -/
theorem c5_single_claim_raises :
    (buildMindmap 7 kmTrivial c5SingleClaimInput).isOk = false := by decide

/-- Claim C7 (counterexample): on `c7TimestampInput` the exported outcome
node carries timestamp `"00:00:02.000"`, which is not an `HH:MM:SS` string —
`_fmt_local` always appends the `.mmm` millisecond suffix. -/
theorem c7_not_hhmmss :
    (match buildMindmap 7 kmTrivial c7TimestampInput with
     | .ok g => g.nodes.any (fun n => n.timestamp.any (fun ts => !(isHHMMSS ts)))
     | .error _ => false) = true := by decide

/-- Claim C2 (counterexample): with `max_visible_themes = 7` and nine
populated themes entering `_rebalance_theme_visibility`, the code keeps the
top 7 themes AND appends the synthetic "More Topics" theme, so the exported
graph has 8 theme-type top-level nodes — exceeding the claimed cap. -/
theorem c2_cap_exceeded :
    ¬ ((((exportGraph plainInput
            (rebalanceThemeVisibility 7 c2Claims [] c2Themes).1
            (rebalanceThemeVisibility 7 c2Claims [] c2Themes).2.1
            (rebalanceThemeVisibility 7 c2Claims [] c2Themes).2.2).nodes.filter
          (fun n => n.type = "theme")).length) ≤ 7) := by decide

/-- Claim C9 (counterexample): on `c9SlugCollisionInput` the exported node
ids are not pairwise distinct — the chapter ids `"ch a"` and `"ch-a"` both
slugify to `"ch-a"`, so two chapter nodes share id
`"theme-001-chapter-ch-a"`.  (Node ids do not depend on the numeric oracle;
only the theme label text does.) -/
theorem c9_duplicate_node_ids :
    (match buildMindmap 7 kmTrivial c9SlugCollisionInput with
     | .ok g => decide ((g.nodes.map (fun n => n.id)).Nodup)
     | .error _ => true) = false := by decide

/-! ## Sorting is a permutation -/

theorem insertByScoreDesc_perm (t : Theme) (l : List Theme) :
    List.Perm (insertByScoreDesc t l) (t :: l) := by
  induction l with
  | nil => simp [insertByScoreDesc]
  | cons h rest ih =>
    simp only [insertByScoreDesc]
    split
    · exact (ih.cons h).trans (List.Perm.swap t h rest)
    · exact List.Perm.refl _

theorem foldl_insert_perm (l acc : List Theme) :
    List.Perm (l.foldl (fun a t => insertByScoreDesc t a) acc) (l ++ acc) := by
  induction l generalizing acc with
  | nil => simp
  | cons h rest ih =>
    simp only [List.foldl_cons, List.cons_append]
    exact ((ih _).trans
      (List.Perm.append_left rest (insertByScoreDesc_perm h acc))).trans List.perm_middle

theorem sortThemesDesc_perm (l : List Theme) : List.Perm (sortThemesDesc l) l := by
  simpa using foldl_insert_perm l []

/-! ## Claim C3: rebalancing preserves claim and outcome totals -/

theorem sumClaims_perm {l₁ l₂ : List Theme} (h : List.Perm l₁ l₂) :
    sumClaims l₁ = sumClaims l₂ := by
  unfold sumClaims
  exact (h.map (fun t => t.claim_indices.length)).sum_eq

theorem sumOutcomes_perm {l₁ l₂ : List Theme} (h : List.Perm l₁ l₂) :
    sumOutcomes l₁ = sumOutcomes l₂ := by
  unfold sumOutcomes
  exact (h.map (fun t => t.outcome_ids.length)).sum_eq

theorem sumClaims_append (l₁ l₂ : List Theme) :
    sumClaims (l₁ ++ l₂) = sumClaims l₁ + sumClaims l₂ := by
  simp [sumClaims]

theorem sumOutcomes_append (l₁ l₂ : List Theme) :
    sumOutcomes (l₁ ++ l₂) = sumOutcomes l₁ + sumOutcomes l₂ := by
  simp [sumOutcomes]

theorem sumClaims_populated (themes : List Theme) :
    sumClaims (populatedThemes themes) = sumClaims themes := by
  induction themes with
  | nil => rfl
  | cons t rest ih =>
    simp only [populatedThemes, List.filter_cons] at *
    split
    · simpa [sumClaims] using ih
    · rename_i hcond
      have : t.claim_indices = [] := by
        by_contra hne
        simp [hne] at hcond
      simp [sumClaims, this] at *
      exact ih

theorem sumOutcomes_populated (themes : List Theme) :
    sumOutcomes (populatedThemes themes) = sumOutcomes themes := by
  induction themes with
  | nil => rfl
  | cons t rest ih =>
    simp only [populatedThemes, List.filter_cons] at *
    split
    · simpa [sumOutcomes] using ih
    · rename_i hcond
      have : t.outcome_ids = [] := by
        by_contra hne
        simp [hne] at hcond
      simp [sumOutcomes, this] at *
      exact ih

/-- The final per-theme chapter recomputation changes neither claim nor
outcome lists. -/
theorem sums_chaptersRecompute (claims : List Claim) (l : List Theme) :
    sumClaims (l.map (chaptersRecompute claims)) = sumClaims l
    ∧ sumOutcomes (l.map (chaptersRecompute claims)) = sumOutcomes l := by
  constructor <;> induction l with
  | nil => rfl
  | cons t rest ih => simpa [sumClaims, sumOutcomes, chaptersRecompute] using ih

theorem sumClaims_mergedTheme (overflow : List Theme) :
    (mergedTheme overflow).claim_indices.length = sumClaims overflow := by
  simp only [mergedTheme, sumClaims, List.length_flatten, List.map_map]
  rfl

theorem sumOutcomes_mergedTheme (overflow : List Theme) :
    (mergedTheme overflow).outcome_ids.length = sumOutcomes overflow := by
  simp only [mergedTheme, sumOutcomes, List.length_flatten, List.map_map]
  rfl

/-- The visibility-cap fold step preserves both totals. -/
theorem sums_capFold (cap : Nat) (claims : List Claim) (outcomes : List Outcome)
    (themes1 : List Theme) :
    sumClaims (capFold cap claims outcomes themes1).2.2 = sumClaims themes1
    ∧ sumOutcomes (capFold cap claims outcomes themes1).2.2 = sumOutcomes themes1 := by
  have hperm := sortThemesDesc_perm themes1
  have hsplit : (sortThemesDesc themes1).take cap ++ (sortThemesDesc themes1).drop cap
      = sortThemesDesc themes1 := List.take_append_drop cap (sortThemesDesc themes1)
  have hkc : sumClaims ((sortThemesDesc themes1).take cap)
        + sumClaims ((sortThemesDesc themes1).drop cap) = sumClaims themes1 := by
    rw [← sumClaims_append, hsplit]
    exact sumClaims_perm hperm
  have hko : sumOutcomes ((sortThemesDesc themes1).take cap)
        + sumOutcomes ((sortThemesDesc themes1).drop cap) = sumOutcomes themes1 := by
    rw [← sumOutcomes_append, hsplit]
    exact sumOutcomes_perm hperm
  unfold capFold
  split
  · dsimp only
    split
    · split
      · constructor
        · rw [sumClaims_append, ← hkc]
          simp [sumClaims, sumClaims_mergedTheme]
        · rw [sumOutcomes_append, ← hko]
          simp [sumOutcomes, sumOutcomes_mergedTheme]
      · rename_i hnotapp
        push_neg at hnotapp
        have h1 : sumClaims ((sortThemesDesc themes1).drop cap) = 0 := by
          rw [← sumClaims_mergedTheme, hnotapp.1]
          rfl
        have h2 : sumOutcomes ((sortThemesDesc themes1).drop cap) = 0 := by
          rw [← sumOutcomes_mergedTheme, hnotapp.2]
          rfl
        constructor
        · rw [sumClaims_append, ← hkc, h1]
          simp [sumClaims]
        · rw [sumOutcomes_append, ← hko, h2]
          simp [sumOutcomes]
    · rename_i hovempty
      push_neg at hovempty
      have h1 : sumClaims ((sortThemesDesc themes1).drop cap) = 0 := by
        rw [hovempty]
        rfl
      have h2 : sumOutcomes ((sortThemesDesc themes1).drop cap) = 0 := by
        rw [hovempty]
        rfl
      constructor
      · dsimp only
        omega
      · dsimp only
        omega
  · exact ⟨rfl, rfl⟩

theorem unpopulated_all_empty (themes : List Theme)
    (h : populatedThemes themes = []) :
    ∀ t ∈ themes, t.claim_indices = [] ∧ t.outcome_ids = [] := by
  intro t ht
  have h2 := List.filter_eq_nil_iff.mp h t ht
  simp only [decide_not, Bool.not_eq_true] at h2
  by_contra hcon
  rw [not_and_or] at hcon
  rcases hcon with hc | hc <;> simp [hc] at h2

theorem sums_zero_of_all_empty (themes : List Theme)
    (h : ∀ t ∈ themes, t.claim_indices = [] ∧ t.outcome_ids = []) :
    sumClaims themes = 0 ∧ sumOutcomes themes = 0 := by
  constructor
  · apply List.sum_eq_zero
    intro x hx
    obtain ⟨t, ht, rfl⟩ := List.mem_map.mp hx
    simp [(h t ht).1]
  · apply List.sum_eq_zero
    intro x hx
    obtain ⟨t, ht, rfl⟩ := List.mem_map.mp hx
    simp [(h t ht).2]

/-- Claim C3: for every builder state, `_rebalance_theme_visibility` preserves
the total number of claim slots and outcome slots across themes — removing
empty themes and folding overflow into "More Topics" never drops content. -/
theorem c3_no_content_loss (cap : Nat) (claims : List Claim)
    (outcomes : List Outcome) (themes : List Theme) :
    sumClaims (rebalanceThemeVisibility cap claims outcomes themes).2.2
        = sumClaims themes
    ∧ sumOutcomes (rebalanceThemeVisibility cap claims outcomes themes).2.2
        = sumOutcomes themes := by
  unfold rebalanceThemeVisibility
  split
  · exact ⟨rfl, rfl⟩
  · dsimp only
    rw [(sums_chaptersRecompute _ _).1, (sums_chaptersRecompute _ _).2,
      (sums_capFold _ _ _ _).1, (sums_capFold _ _ _ _).2]
    by_cases hp : populatedThemes themes = []
    · rw [if_pos hp]
      have hall := unpopulated_all_empty themes hp
      obtain ⟨h1, h2⟩ := sums_zero_of_all_empty themes hall
      obtain ⟨h3, h4⟩ := sums_zero_of_all_empty (themes.take 1)
        (fun t ht => hall t (List.take_subset 1 themes ht))
      rw [h1, h2, h3, h4]
      exact ⟨rfl, rfl⟩
    · rw [if_neg hp]
      exact ⟨sumClaims_populated themes, sumOutcomes_populated themes⟩

/-! ## Claim C2 (amended): theme-node bound after rebalancing -/

/-- Fold invariant helper. -/
theorem foldl_invariant {α β : Type} (P : β → Prop) (op : β → α → β) (l : List α)
    (b : β) (hb : P b) (hstep : ∀ x a, P x → P (op x a)) : P (l.foldl op b) := by
  induction l generalizing b with
  | nil => exact hb
  | cons a rest ih => exact ih (op b a) (hstep b a hb)

/-- Every node emitted by the claim loop is a chapter node or a claim node. -/
theorem exportClaimNodes_types (chs : List ChapterRec) (claims : List Claim)
    (t : Theme) (seen : SeenMap) :
    ∀ n ∈ (exportClaimNodes chs claims t seen).1,
      n.type = "chapter" ∨ n.type = "claim" := by
  unfold exportClaimNodes
  refine foldl_invariant (fun acc => ∀ n ∈ acc.1, n.type = "chapter" ∨ n.type = "claim")
    (claimNodeStep chs claims t) t.claim_indices ([], seen) ?_ ?_
  · intro n hn
    simp at hn
  · intro acc ci hacc n hn
    unfold claimNodeStep at hn
    dsimp only at hn
    rcases List.mem_append.mp hn with hmem | hmem
    · split at hmem
      · split at hmem
        · exact hacc n hmem
        · rcases List.mem_append.mp hmem with hmem2 | hmem2
          · exact hacc n hmem2
          · left
            rcases List.mem_singleton.mp hmem2 with rfl
            rfl
      · exact hacc n hmem
    · right
      rcases List.mem_singleton.mp hmem with rfl
      rfl

/-- The theme-type nodes of one theme block are exactly one node carrying the
theme's id (outcome nodes keep their outcome type, which is not "theme"). -/
theorem exportThemeBlock_theme_ids (chs : List ChapterRec) (claims : List Claim)
    (outcomes : List Outcome) (t : Theme) (seen : SeenMap)
    (hotype : ∀ o ∈ outcomes, o.type ≠ "theme") :
    ((exportThemeBlock chs claims outcomes t seen).1.filter
        (fun n => n.type = "theme")).map (fun n => n.id) = [t.id] := by
  unfold exportThemeBlock
  dsimp only
  have hclaims : (exportClaimNodes chs claims t seen).1.filter
      (fun n => n.type = "theme") = [] := by
    refine List.filter_eq_nil_iff.mpr ?_
    intro n hn
    rcases exportClaimNodes_types chs claims t seen n hn with h | h <;> simp [h]
  have houts : (exportOutcomeNodes outcomes t).filter (fun n => n.type = "theme") = [] := by
    refine List.filter_eq_nil_iff.mpr ?_
    intro n hn
    unfold exportOutcomeNodes at hn
    rcases List.mem_map.mp hn with ⟨o, ho, rfl⟩
    have := hotype o (List.mem_of_mem_filter ho)
    simpa using this
  simp [List.filter_append, hclaims, houts, themeNodeOf]

/-- The theme-type nodes of the exported graph list exactly the themes' ids,
in order. -/
theorem export_theme_ids (inp : BuilderInput) (claims : List Claim)
    (outcomes : List Outcome) (themes : List Theme)
    (hotype : ∀ o ∈ outcomes, o.type ≠ "theme") :
    (((exportGraph inp claims outcomes themes).nodes.filter
        (fun n => n.type = "theme")).map (fun n => n.id)) = themes.map Theme.id := by
  have main : ∀ (ts : List Theme) (acc : List GNode) (seen : SeenMap),
      (((ts.foldl (exportStep inp.chapters claims outcomes) (acc, seen)).1.filter
          (fun n => n.type = "theme")).map (fun n => n.id))
        = ((acc.filter (fun n => n.type = "theme")).map (fun n => n.id))
            ++ ts.map Theme.id := by
    intro ts
    induction ts with
    | nil =>
      intro acc seen
      simp
    | cons t rest ih =>
      intro acc seen
      rw [List.foldl_cons]
      have hstep : exportStep inp.chapters claims outcomes (acc, seen) t
          = (acc ++ (exportThemeBlock inp.chapters claims outcomes t seen).1,
             (exportThemeBlock inp.chapters claims outcomes t seen).2) := rfl
      rw [hstep, ih, List.filter_append, List.map_append,
        exportThemeBlock_theme_ids inp.chapters claims outcomes t seen hotype]
      simp
  have h := main themes [] []
  simpa [exportGraph] using h

/-- The visibility-cap fold yields at most `cap + 1` themes. -/
theorem capFold_len_le (cap : Nat) (claims : List Claim) (outcomes : List Outcome)
    (themes1 : List Theme) : (capFold cap claims outcomes themes1).2.2.length ≤ cap + 1 := by
  have h1 := List.length_take_le cap (sortThemesDesc themes1)
  unfold capFold
  by_cases hgt : themes1.length > cap
  · rw [if_pos hgt]
    dsimp only
    by_cases hov : (sortThemesDesc themes1).drop cap ≠ []
    · rw [if_pos hov]
      dsimp only
      split <;>
        simp only [List.length_append, List.append_nil, List.length_singleton] <;> omega
    · rw [if_neg hov]
      show (List.take cap (sortThemesDesc themes1)).length ≤ cap + 1
      omega
  · rw [if_neg hgt]
    show themes1.length ≤ cap + 1
    omega

/-- The visibility-cap fold keeps at most one theme with id `theme-more` when
no incoming theme carries that id. -/
theorem capFold_more_le_one (cap : Nat) (claims : List Claim) (outcomes : List Outcome)
    (themes1 : List Theme) (h1 : ∀ t ∈ themes1, t.id ≠ "theme-more") :
    ((capFold cap claims outcomes themes1).2.2.filter
        (fun t => t.id = "theme-more")).length ≤ 1 := by
  have hsorted : ∀ t ∈ sortThemesDesc themes1, t.id ≠ "theme-more" := fun t ht =>
    h1 t ((sortThemesDesc_perm themes1).mem_iff.mp ht)
  have hkeep : ((sortThemesDesc themes1).take cap).filter
      (fun t => t.id = "theme-more") = [] := by
    refine List.filter_eq_nil_iff.mpr ?_
    intro t ht
    simp [hsorted t (List.take_subset cap _ ht)]
  unfold capFold
  by_cases hgt : themes1.length > cap
  · rw [if_pos hgt]
    dsimp only
    by_cases hov : (sortThemesDesc themes1).drop cap ≠ []
    · rw [if_pos hov]
      dsimp only
      split
      · rw [List.filter_append, hkeep, List.nil_append]
        calc (List.filter (fun t => decide (t.id = "theme-more"))
              [mergedTheme ((sortThemesDesc themes1).drop cap)]).length
            ≤ [mergedTheme ((sortThemesDesc themes1).drop cap)].length :=
              List.length_filter_le _ _
          _ = 1 := rfl
      · rw [List.append_nil, hkeep]
        simp
    · rw [if_neg hov]
      show ((List.take cap (sortThemesDesc themes1)).filter
        (fun t => t.id = "theme-more")).length ≤ 1
      rw [hkeep]
      simp
  · rw [if_neg hgt]
    have h2 : themes1.filter (fun t => t.id = "theme-more") = [] := by
      refine List.filter_eq_nil_iff.mpr ?_
      intro t ht
      simp [h1 t ht]
    show (themes1.filter (fun t => t.id = "theme-more")).length ≤ 1
    rw [h2]
    simp

/-- Recomputing chapter sets does not change which themes carry an id. -/
theorem filter_id_map_chapters (claims : List Claim) (l : List Theme) (m : String) :
    ((l.map (chaptersRecompute claims)).filter (fun t => t.id = m)).length
      = (l.filter (fun t => t.id = m)).length := by
  rw [List.filter_map, List.length_map]
  have h : ∀ t ∈ l, ((fun t : Theme => decide (t.id = m)) ∘ chaptersRecompute claims) t
      = (fun t : Theme => decide (t.id = m)) t := fun t _ => rfl
  rw [List.filter_congr h]

/-- The rebalanced theme list never exceeds `cap + 1` themes. -/
theorem rebalance_len_le (cap : Nat) (claims : List Claim)
    (outcomes : List Outcome) (themes : List Theme) :
    (rebalanceThemeVisibility cap claims outcomes themes).2.2.length ≤ cap + 1 := by
  unfold rebalanceThemeVisibility
  split
  · rename_i h
    subst h
    simp
  · dsimp only
    rw [List.length_map]
    exact capFold_len_le cap claims outcomes _

/-- Rebalancing keeps at most one theme with the synthetic id `theme-more`
when no input theme already carries it. -/
theorem rebalance_more_le_one (cap : Nat) (claims : List Claim)
    (outcomes : List Outcome) (themes : List Theme)
    (hmore : ∀ t ∈ themes, t.id ≠ "theme-more") :
    ((rebalanceThemeVisibility cap claims outcomes themes).2.2.filter
        (fun t => t.id = "theme-more")).length ≤ 1 := by
  have hsub1 : ∀ t ∈ (if populatedThemes themes = [] then themes.take 1
      else populatedThemes themes), t.id ≠ "theme-more" := by
    intro t ht
    split at ht
    · exact hmore t (List.take_subset 1 themes ht)
    · exact hmore t (List.mem_of_mem_filter ht)
  unfold rebalanceThemeVisibility
  split
  · rename_i h
    subst h
    simp
  · dsimp only
    rw [filter_id_map_chapters]
    exact capFold_more_le_one cap claims outcomes _ hsub1

/-- Re-pointing an outcome's theme does not change its type. -/
theorem outcome_repoint_type (o' : Outcome) (b : Bool) (hne : o'.type ≠ "theme") :
    (if b = true then { o' with theme_id := some "theme-more" } else o').type
      ≠ "theme" := by
  split
  · exact hne
  · exact hne

/-- Rebalancing does not change any outcome's `type`. -/
theorem rebalance_outcome_types (cap : Nat) (claims : List Claim)
    (outcomes : List Outcome) (themes : List Theme)
    (hotype : ∀ o ∈ outcomes, o.type ≠ "theme") :
    ∀ o ∈ (rebalanceThemeVisibility cap claims outcomes themes).2.1,
      o.type ≠ "theme" := by
  intro o ho
  unfold rebalanceThemeVisibility at ho
  by_cases hemp : themes = []
  · rw [if_pos hemp] at ho
    exact hotype o ho
  · rw [if_neg hemp] at ho
    dsimp only at ho
    revert ho
    show o ∈ (capFold cap claims outcomes _).2.1 → o.type ≠ "theme"
    intro ho
    unfold capFold at ho
    by_cases hgt : (if populatedThemes themes = [] then themes.take 1
        else populatedThemes themes).length > cap
    · rw [if_pos hgt] at ho
      dsimp only at ho
      by_cases hov : (sortThemesDesc (if populatedThemes themes = [] then themes.take 1
          else populatedThemes themes)).drop cap ≠ []
      · rw [if_pos hov] at ho
        dsimp only at ho
        rcases List.mem_map.mp ho with ⟨o', ho', rfl⟩
        exact outcome_repoint_type o' _ (hotype o' ho')
      · rw [if_neg hov] at ho
        exact hotype o ho
    · rw [if_neg hgt] at ho
      exact hotype o ho

/-- Claim C2 (amended): after rebalancing, the exported graph has at most
`max_visible_themes + 1` theme-type top-level nodes (the code keeps the top
`max_visible_themes` themes and may additionally append the synthetic
overflow theme), and at most one of those nodes is the synthetic "More
Topics" theme (id `theme-more`).  The hypotheses record pipeline invariants:
no pre-rebalance theme carries the synthetic id, and outcome types are
outcome kinds, never "theme". -/
theorem c2_theme_cap_amended (cap : Nat) (inp : BuilderInput)
    (claims : List Claim) (outcomes : List Outcome) (themes : List Theme)
    (hmore : ∀ t ∈ themes, t.id ≠ "theme-more")
    (hotype : ∀ o ∈ outcomes, o.type ≠ "theme") :
    (((exportGraph inp (rebalanceThemeVisibility cap claims outcomes themes).1
          (rebalanceThemeVisibility cap claims outcomes themes).2.1
          (rebalanceThemeVisibility cap claims outcomes themes).2.2).nodes.filter
        (fun n => n.type = "theme")).length ≤ cap + 1)
    ∧ ((((exportGraph inp (rebalanceThemeVisibility cap claims outcomes themes).1
          (rebalanceThemeVisibility cap claims outcomes themes).2.1
          (rebalanceThemeVisibility cap claims outcomes themes).2.2).nodes.filter
        (fun n => n.type = "theme")).filter (fun n => n.id = "theme-more")).length ≤ 1) := by
  have hotype2 := rebalance_outcome_types cap claims outcomes themes hotype
  have hids := export_theme_ids inp (rebalanceThemeVisibility cap claims outcomes themes).1
    (rebalanceThemeVisibility cap claims outcomes themes).2.1
    (rebalanceThemeVisibility cap claims outcomes themes).2.2 hotype2
  constructor
  · have hlen : (((exportGraph inp (rebalanceThemeVisibility cap claims outcomes themes).1
        (rebalanceThemeVisibility cap claims outcomes themes).2.1
        (rebalanceThemeVisibility cap claims outcomes themes).2.2).nodes.filter
        (fun n => n.type = "theme")).map (fun n => n.id)).length
        = ((rebalanceThemeVisibility cap claims outcomes themes).2.2.map Theme.id).length := by
      rw [hids]
    rw [List.length_map, List.length_map] at hlen
    rw [hlen]
    exact rebalance_len_le cap claims outcomes themes
  · have hcnt : ((((exportGraph inp (rebalanceThemeVisibility cap claims outcomes themes).1
        (rebalanceThemeVisibility cap claims outcomes themes).2.1
        (rebalanceThemeVisibility cap claims outcomes themes).2.2).nodes.filter
        (fun n => n.type = "theme")).map (fun n => n.id)).filter
          (fun s => s = "theme-more")).length
        = ((((rebalanceThemeVisibility cap claims outcomes themes).2.2.map
            Theme.id)).filter (fun s => s = "theme-more")).length := by
      rw [hids]
    rw [List.filter_map, List.length_map, List.filter_map, List.length_map] at hcnt
    calc (((exportGraph inp (rebalanceThemeVisibility cap claims outcomes themes).1
          (rebalanceThemeVisibility cap claims outcomes themes).2.1
          (rebalanceThemeVisibility cap claims outcomes themes).2.2).nodes.filter
          (fun n => n.type = "theme")).filter (fun n => n.id = "theme-more")).length
        = (((rebalanceThemeVisibility cap claims outcomes themes).2.2.filter
            (fun t => t.id = "theme-more")).length) := hcnt
      _ ≤ 1 := rebalance_more_le_one cap claims outcomes themes hmore

/-- Witness for C2's amended theorem at a concrete nine-theme state. -/
theorem c2_theme_cap_amended_witness :
    (((exportGraph plainInput (rebalanceThemeVisibility 7 c2Claims [] c2Themes).1
          (rebalanceThemeVisibility 7 c2Claims [] c2Themes).2.1
          (rebalanceThemeVisibility 7 c2Claims [] c2Themes).2.2).nodes.filter
        (fun n => n.type = "theme")).length ≤ 8) :=
  (c2_theme_cap_amended 7 plainInput c2Claims [] c2Themes (by decide)
    (fun o ho => absurd ho (List.not_mem_nil o))).1

/-! ## Claim C7 (amended): exported timestamps are `H⁺:MM:SS.mmm` strings -/

theorem digitChar_isDigit (n : Nat) : (digitChar n).isDigit = true := by
  unfold digitChar
  have h : n % 10 < 10 := Nat.mod_lt _ (by omega)
  set r := n % 10 with hr
  interval_cases r <;> decide

/-- Shape of the digit accumulator: it prepends a nonempty all-digit list,
of length 1 for `n < 10`, at most 2 for `n < 100`, at most 3 for `n < 1000`. -/
theorem natToDecGo_spec : ∀ fuel n acc, n < fuel →
    ∃ ds, natToDecGo fuel n acc = ds ++ acc ∧ ds ≠ [] ∧ (∀ c ∈ ds, c.isDigit = true)
      ∧ (n < 10 → ds.length = 1) ∧ (n < 100 → ds.length ≤ 2)
      ∧ (n < 1000 → ds.length ≤ 3) := by
  intro fuel
  induction fuel with
  | zero => intro n acc h; omega
  | succ fuel ih =>
    intro n acc h
    unfold natToDecGo
    split
    · exact ⟨[digitChar (n % 10)], rfl, by simp, by simp [digitChar_isDigit], by simp,
        by simp, by simp⟩
    · rename_i h10
      push_neg at h10
      have hdiv : n / 10 < fuel := by
        have := Nat.div_lt_self (show 0 < n by omega) (show 1 < 10 by omega)
        omega
      obtain ⟨ds, heq, hne, hdig, h1, h2, h3⟩ := ih (n / 10) (digitChar (n % 10) :: acc) hdiv
      refine ⟨ds ++ [digitChar (n % 10)], ?_, by simp, ?_, ?_, ?_, ?_⟩
      · rw [heq]
        simp
      · intro c hc
        rcases List.mem_append.mp hc with hc | hc
        · exact hdig c hc
        · rcases List.mem_singleton.mp hc with rfl
          exact digitChar_isDigit _
      · intro hlt
        omega
      · intro hlt
        have : n / 10 < 10 := by omega
        have := h1 this
        simp [this]
      · intro hlt
        have : n / 10 < 100 := by omega
        have := h2 this
        simp
        omega

/-- `pad2 n` for `n < 100` is exactly two digit characters. -/
theorem pad2_two (n : Nat) (h : n < 100) :
    ∃ a b, (pad2 n).data = [a, b] ∧ a.isDigit = true ∧ b.isDigit = true := by
  obtain ⟨ds, heq, hne, hdig, h1, h2, _⟩ := natToDecGo_spec (n + 1) n [] (by omega)
  have hdata : (natToDec n).data = ds := by
    simp [natToDec, heq]
  unfold pad2 padZero
  have hlen : (natToDec n).length = ds.length := by
    simp [String.length, hdata]
  rcases ds with _ | ⟨a, _ | ⟨b, rest⟩⟩
  · exact absurd rfl hne
  · have : (natToDec n).length = 1 := by simp [hlen]
    rw [if_neg (by omega)]
    refine ⟨'0', a, ?_, by decide, hdig a (by simp)⟩
    simp [this, hdata]
  · have hle := h2 h
    have : rest = [] := by
      cases rest with
      | nil => rfl
      | cons x xs =>
        exfalso
        simp only [List.length_cons] at hle
        omega
    subst this
    have hlen2 : (natToDec n).length = 2 := by simp [hlen]
    rw [if_pos (by omega)]
    exact ⟨a, b, hdata, hdig a (by simp), hdig b (by simp)⟩

/-- `pad3 n` for `n < 1000` is exactly three digit characters. -/
theorem pad3_three (n : Nat) (h : n < 1000) :
    ∃ a b c, (pad3 n).data = [a, b, c] ∧ a.isDigit = true ∧ b.isDigit = true
      ∧ c.isDigit = true := by
  obtain ⟨ds, heq, hne, hdig, h1, h2, h3⟩ := natToDecGo_spec (n + 1) n [] (by omega)
  have hdata : (natToDec n).data = ds := by
    simp [natToDec, heq]
  unfold pad3 padZero
  have hlen : (natToDec n).length = ds.length := by
    simp [String.length, hdata]
  rcases ds with _ | ⟨a, _ | ⟨b, _ | ⟨c, rest⟩⟩⟩
  · exact absurd rfl hne
  · have h1' : (natToDec n).length = 1 := by simp [hlen]
    rw [if_neg (by omega)]
    refine ⟨'0', '0', a, ?_, by decide, by decide, hdig a (by simp)⟩
    simp [h1', hdata]
  · have h2' : (natToDec n).length = 2 := by simp [hlen]
    rw [if_neg (by omega)]
    refine ⟨'0', a, b, ?_, by decide, hdig a (by simp), hdig b (by simp)⟩
    simp [h2', hdata]
  · have hle := h3 h
    have : rest = [] := by
      cases rest with
      | nil => rfl
      | cons x xs =>
        exfalso
        simp only [List.length_cons] at hle
        omega
    subst this
    have hlen3 : (natToDec n).length = 3 := by simp [hlen]
    rw [if_pos (by omega)]
    exact ⟨a, b, c, hdata, hdig a (by simp), hdig b (by simp), hdig c (by simp)⟩

/-- `pad2 n` is always a nonempty all-digit string of length at least 2. -/
theorem pad2_min (n : Nat) :
    (pad2 n).data.length ≥ 2 ∧ ∀ c ∈ (pad2 n).data, c.isDigit = true := by
  obtain ⟨ds, heq, hne, hdig, _, _, _⟩ := natToDecGo_spec (n + 1) n [] (by omega)
  have hdata : (natToDec n).data = ds := by
    simp [natToDec, heq]
  unfold pad2 padZero
  have hlen : (natToDec n).length = ds.length := by
    simp [String.length, hdata]
  split
  · rename_i hge
    constructor
    · rw [hdata]
      omega
    · intro c hc
      rw [hdata] at hc
      exact hdig c hc
  · rename_i hlt
    push_neg at hlt
    constructor
    · simp [hdata]
      omega
    · intro c hc
      rw [String.data_append] at hc
      rcases List.mem_append.mp hc with hc | hc
      · have hc' : c ∈ List.replicate (2 - (natToDec n).length) '0' := hc
        have hc0 : c = '0' := List.eq_of_mem_replicate hc'
        rw [hc0]
        decide
      · rw [hdata] at hc
        exact hdig c hc

/-- `takeWhile`/`dropWhile` across an all-digit prefix followed by a colon. -/
theorem takeWhile_digit_prefix (l rest : List Char) (hl : ∀ c ∈ l, c.isDigit = true) :
    (l ++ ':' :: rest).takeWhile Char.isDigit = l
    ∧ (l ++ ':' :: rest).dropWhile Char.isDigit = ':' :: rest := by
  induction l with
  | nil => simp [List.takeWhile, List.dropWhile]
  | cons c cs ih =>
    have hc := hl c (by simp)
    obtain ⟨h1, h2⟩ := ih (fun x hx => hl x (by simp [hx]))
    simp only [List.cons_append, List.takeWhile_cons, List.dropWhile_cons, hc]
    simp [h1, h2]

/-- Every `_fmt_local` output matches `H⁺:MM:SS.mmm`. -/
theorem isTsMMM_fmtLocal (ms : Nat) : isTsMMM (fmtLocal ms) = true := by
  obtain ⟨m1, m2, hm, hm1, hm2⟩ := pad2_two (ms / 1000 / 60 % 60) (by
    have := Nat.mod_lt (ms / 1000 / 60) (show 0 < 60 by omega)
    omega)
  obtain ⟨s1, s2, hs, hs1, hs2⟩ := pad2_two (ms / 1000 % 60) (by
    have := Nat.mod_lt (ms / 1000) (show 0 < 60 by omega)
    omega)
  obtain ⟨r1, r2, r3, hr, hr1, hr2, hr3⟩ := pad3_three (ms % 1000) (by
    have := Nat.mod_lt ms (show 0 < 1000 by omega)
    omega)
  obtain ⟨hhlen, hhdig⟩ := pad2_min (ms / 1000 / 60 / 60)
  have hdata : (fmtLocal ms).data
      = (pad2 (ms / 1000 / 60 / 60)).data
        ++ ':' :: (m1 :: m2 :: ':' :: (s1 :: s2 :: '.' :: (r1 :: r2 :: r3 :: []))) := by
    unfold fmtLocal
    dsimp only
    rw [String.data_append, String.data_append, String.data_append,
      String.data_append, String.data_append, String.data_append]
    rw [hm, hs, hr]
    show (pad2 (ms / 1000 / 60 / 60)).data ++ [':'] ++ [m1, m2] ++ [':']
        ++ [s1, s2] ++ ['.'] ++ [r1, r2, r3] = _
    simp
  unfold isTsMMM
  rw [hdata]
  obtain ⟨ht, hd⟩ := takeWhile_digit_prefix (pad2 (ms / 1000 / 60 / 60)).data _ hhdig
  rw [ht, hd]
  dsimp only
  simp [hm1, hm2, hs1, hs2, hr1, hr2, hr3]
  exact hhlen

/-- Every node produced by the export carries either no timestamp or a
`_format_ms`-rendered one. -/
theorem export_timestamps_shape (inp : BuilderInput) (claims : List Claim)
    (outcomes : List Outcome) (themes : List Theme) :
    ∀ n ∈ (exportGraph inp claims outcomes themes).nodes,
      n.timestamp = none ∨ ∃ ms, n.timestamp = some (fmtLocal ms) := by
  have hout : ∀ (t : Theme) (n : GNode), n ∈ exportOutcomeNodes outcomes t →
      n.timestamp = none ∨ ∃ ms, n.timestamp = some (fmtLocal ms) := by
    intro t n hn
    unfold exportOutcomeNodes at hn
    rcases List.mem_map.mp hn with ⟨o, _, rfl⟩
    cases hms : o.time_hint_ms with
    | none => left; simp [formatMs, hms]
    | some v => right; exact ⟨v, by simp [formatMs, hms]⟩
  have hclaim : ∀ (t : Theme) (seen : SeenMap) (n : GNode),
      n ∈ (exportClaimNodes inp.chapters claims t seen).1 →
      n.timestamp = none ∨ ∃ ms, n.timestamp = some (fmtLocal ms) := by
    intro t seen
    unfold exportClaimNodes
    refine foldl_invariant (fun acc => ∀ n ∈ acc.1,
      n.timestamp = none ∨ ∃ ms, n.timestamp = some (fmtLocal ms))
      (claimNodeStep inp.chapters claims t) t.claim_indices ([], seen) ?_ ?_
    · intro n hn
      simp at hn
    · intro acc ci hacc n hn
      unfold claimNodeStep at hn
      dsimp only at hn
      rcases List.mem_append.mp hn with hmem | hmem
      · split at hmem
        · split at hmem
          · exact hacc n hmem
          · rcases List.mem_append.mp hmem with hmem2 | hmem2
            · exact hacc n hmem2
            · rcases List.mem_singleton.mp hmem2 with rfl
              left
              rfl
        · exact hacc n hmem
      · rcases List.mem_singleton.mp hmem with rfl
        cases hms : (claims.getD ci defaultClaim).time_hint_ms with
        | none =>
          left
          show formatMs (claims.getD ci defaultClaim).time_hint_ms = none
          rw [hms]
          rfl
        | some v =>
          right
          refine ⟨v, ?_⟩
          show formatMs (claims.getD ci defaultClaim).time_hint_ms
            = some (fmtLocal v)
          rw [hms]
          rfl
  have main : ∀ (ts : List Theme) (acc : List GNode) (seen : SeenMap),
      (∀ n ∈ acc, n.timestamp = none ∨ ∃ ms, n.timestamp = some (fmtLocal ms)) →
      ∀ n ∈ (ts.foldl (exportStep inp.chapters claims outcomes) (acc, seen)).1,
        n.timestamp = none ∨ ∃ ms, n.timestamp = some (fmtLocal ms) := by
    intro ts
    induction ts with
    | nil =>
      intro acc seen hacc n hn
      exact hacc n hn
    | cons t rest ih =>
      intro acc seen hacc n hn
      rw [List.foldl_cons] at hn
      have hstep : exportStep inp.chapters claims outcomes (acc, seen) t
          = (acc ++ (exportThemeBlock inp.chapters claims outcomes t seen).1,
             (exportThemeBlock inp.chapters claims outcomes t seen).2) := rfl
      rw [hstep] at hn
      refine ih _ _ ?_ n hn
      intro m hm
      rcases List.mem_append.mp hm with hmem | hmem
      · exact hacc m hmem
      · unfold exportThemeBlock at hmem
        dsimp only at hmem
        rcases List.mem_cons.mp hmem with rfl | hmem
        · left
          rfl
        · rcases List.mem_append.mp hmem with hmem2 | hmem2
          · exact hclaim t seen m hmem2
          · exact hout t m hmem2
  intro n hn
  exact main themes [] [] (by intro m hm; simp at hm) n hn

/-- Claim C7 (amended): every timestamp field emitted on an exported node is
a human-readable `H⁺:MM:SS.mmm` string (hours zero-padded to at least two
digits, exactly two minute digits, two second digits, and a three-digit
millisecond suffix), or absent — never a raw millisecond integer.  The spec's
claim of a bare `HH:MM:SS` format is corrected by the counterexample. -/
theorem c7_timestamp_format_amended (inp : BuilderInput) (claims : List Claim)
    (outcomes : List Outcome) (themes : List Theme) :
    ∀ n ∈ (exportGraph inp claims outcomes themes).nodes, ∀ ts,
      n.timestamp = some ts → isTsMMM ts = true := by
  intro n hn ts hts
  rcases export_timestamps_shape inp claims outcomes themes n hn with h | ⟨ms, h⟩
  · rw [h] at hts
    exact absurd hts (by simp)
  · rw [h] at hts
    rcases Option.some_inj.mp hts with rfl
    exact isTsMMM_fmtLocal ms

/-- Witness for C7's amended theorem: the claim node exported for `wfClaims`
carries timestamp `00:00:02.000`, which matches the format. -/
theorem c7_timestamp_format_witness : isTsMMM "00:00:02.000" = true :=
  c7_timestamp_format_amended plainInput wfClaims wfOutcomes wfThemes
    ((exportGraph plainInput wfClaims wfOutcomes wfThemes).nodes.getD 2 defaultGNode)
    (by
      rw [List.getD_eq_getElem _ _ (by decide)]
      exact List.getElem_mem _)
    "00:00:02.000" (by rfl)

/-! ## Claim C10: empty edge list and well-formed parent pointers -/

/-- `seenLookup` only returns node ids recorded in the map. -/
theorem seenLookup_mem (sn : SeenMap) (key : String × String) (nid : String)
    (h : seenLookup sn key = some nid) : ∃ e ∈ sn, e.2 = nid := by
  unfold seenLookup at h
  cases hf : sn.find? (fun p => p.1 = key) with
  | none =>
    rw [hf] at h
    simp at h
  | some e =>
    rw [hf] at h
    simp at h
    exact ⟨e, List.mem_of_find?_eq_some hf, h⟩

/-- The three shapes one step of the claim loop can take: plain claim node
under the theme, claim node under an already-seen chapter id, or a fresh
chapter node followed by the claim node. -/
theorem claimNodeStep_cases (chs : List ChapterRec) (claims : List Claim)
    (t : Theme) (s : List GNode × SeenMap) (ci : Nat) :
    (claimNodeStep chs claims t s ci
        = (s.1 ++ [claimNodeOf (claims.getD ci defaultClaim) t.id], s.2))
    ∨ (∃ nid, (∃ e ∈ s.2, e.2 = nid) ∧ claimNodeStep chs claims t s ci
        = (s.1 ++ [claimNodeOf (claims.getD ci defaultClaim) nid], s.2))
    ∨ (∃ cidS, claimNodeStep chs claims t s ci
        = ((s.1 ++ [chapterNodeOf chs t cidS])
            ++ [claimNodeOf (claims.getD ci defaultClaim)
                  (chapterNodeOf chs t cidS).id],
           s.2 ++ [((t.id, cidS), (chapterNodeOf chs t cidS).id)])) := by
  unfold claimNodeStep
  dsimp only
  by_cases htr : truthyOS (claims.getD ci defaultClaim).chapter_id = true
  · rw [if_pos htr]
    cases hlk : seenLookup s.2
        (t.id, (claims.getD ci defaultClaim).chapter_id.getD "") with
    | some nid =>
      exact Or.inr (Or.inl ⟨nid, seenLookup_mem s.2 _ nid hlk, rfl⟩)
    | none =>
      exact Or.inr (Or.inr ⟨(claims.getD ci defaultClaim).chapter_id.getD "", rfl⟩)
  · rw [if_neg htr]
    exact Or.inl rfl

/-- Invariant of the claim loop: every emitted node hangs off the theme or
off a chapter node reachable through the accumulated state, and every
`chapters_seen` entry names such a chapter node. -/
theorem claimFold_parents (chs : List ChapterRec) (claims : List Claim)
    (t : Theme) (accN : List GNode) (cis : List Nat) (s : List GNode × SeenMap)
    (h1 : ∀ n ∈ s.1, n.parent_id = t.id
        ∨ ∃ p, (p ∈ accN ∨ p ∈ s.1) ∧ p.id = n.parent_id ∧ p.type = "chapter")
    (h2 : ∀ e ∈ s.2, ∃ p, (p ∈ accN ∨ p ∈ s.1) ∧ p.id = e.2 ∧ p.type = "chapter") :
    (∀ n ∈ (cis.foldl (claimNodeStep chs claims t) s).1, n.parent_id = t.id
        ∨ ∃ p, (p ∈ accN ∨ p ∈ (cis.foldl (claimNodeStep chs claims t) s).1)
            ∧ p.id = n.parent_id ∧ p.type = "chapter")
    ∧ (∀ e ∈ (cis.foldl (claimNodeStep chs claims t) s).2,
        ∃ p, (p ∈ accN ∨ p ∈ (cis.foldl (claimNodeStep chs claims t) s).1)
            ∧ p.id = e.2 ∧ p.type = "chapter") := by
  induction cis generalizing s with
  | nil => exact ⟨h1, h2⟩
  | cons ci rest ih =>
    rw [List.foldl_cons]
    rcases claimNodeStep_cases chs claims t s ci with hc | ⟨nid, ⟨e, he, he2⟩, hc⟩
        | ⟨cidS, hc⟩
    · rw [hc]
      refine ih _ ?_ ?_
      · intro n hn
        rcases List.mem_append.mp hn with hn | hn
        · rcases h1 n hn with h | ⟨p, hp, hpid, hpt⟩
          · exact Or.inl h
          · exact Or.inr ⟨p, by
              rcases hp with hp | hp
              · exact Or.inl hp
              · exact Or.inr (List.mem_append_left _ hp), hpid, hpt⟩
        · rcases List.mem_singleton.mp hn with rfl
          exact Or.inl rfl
      · intro e he
        obtain ⟨p, hp, hpid, hpt⟩ := h2 e he
        refine ⟨p, ?_, hpid, hpt⟩
        rcases hp with hp | hp
        · exact Or.inl hp
        · exact Or.inr (List.mem_append_left _ hp)
    · rw [hc]
      refine ih _ ?_ ?_
      · intro n hn
        rcases List.mem_append.mp hn with hn | hn
        · rcases h1 n hn with h | ⟨p, hp, hpid, hpt⟩
          · exact Or.inl h
          · exact Or.inr ⟨p, by
              rcases hp with hp | hp
              · exact Or.inl hp
              · exact Or.inr (List.mem_append_left _ hp), hpid, hpt⟩
        · rcases List.mem_singleton.mp hn with rfl
          obtain ⟨p, hp, hpid, hpt⟩ := h2 e he
          refine Or.inr ⟨p, ?_, ?_, hpt⟩
          · rcases hp with hp | hp
            · exact Or.inl hp
            · exact Or.inr (List.mem_append_left _ hp)
          · show p.id = nid
            rw [hpid, he2]
      · intro e' he'
        obtain ⟨p, hp, hpid, hpt⟩ := h2 e' he'
        refine ⟨p, ?_, hpid, hpt⟩
        rcases hp with hp | hp
        · exact Or.inl hp
        · exact Or.inr (List.mem_append_left _ hp)
    · rw [hc]
      refine ih _ ?_ ?_
      · intro n hn
        rcases List.mem_append.mp hn with hn | hn
        · rcases List.mem_append.mp hn with hn | hn
          · rcases h1 n hn with h | ⟨p, hp, hpid, hpt⟩
            · exact Or.inl h
            · exact Or.inr ⟨p, by
                rcases hp with hp | hp
                · exact Or.inl hp
                · exact Or.inr (List.mem_append_left _ (List.mem_append_left _ hp)),
                hpid, hpt⟩
          · rcases List.mem_singleton.mp hn with rfl
            exact Or.inl rfl
        · rcases List.mem_singleton.mp hn with rfl
          refine Or.inr ⟨chapterNodeOf chs t cidS, ?_, rfl, rfl⟩
          exact Or.inr (List.mem_append_left _
            (List.mem_append_right _ (List.mem_singleton.mpr rfl)))
      · intro e' he'
        rcases List.mem_append.mp he' with he' | he'
        · obtain ⟨p, hp, hpid, hpt⟩ := h2 e' he'
          refine ⟨p, ?_, hpid, hpt⟩
          rcases hp with hp | hp
          · exact Or.inl hp
          · exact Or.inr (List.mem_append_left _ (List.mem_append_left _ hp))
        · rcases List.mem_singleton.mp he' with rfl
          refine ⟨chapterNodeOf chs t cidS, ?_, rfl, rfl⟩
          exact Or.inr (List.mem_append_left _
            (List.mem_append_right _ (List.mem_singleton.mpr rfl)))

/-- Parent well-formedness is monotone under growing the node list. -/
theorem parentOk_mono (ns ns' : List GNode) (h : ∀ p ∈ ns, p ∈ ns') (n : GNode)
    (hn : parentOk ns n) : parentOk ns' n := by
  rcases hn with h0 | ⟨p, hp, hid, ht⟩
  · exact Or.inl h0
  · exact Or.inr ⟨p, h p hp, hid, ht⟩

/-- Invariant of the theme loop: every node accumulated so far has a
well-formed parent pointer within the accumulator, and every `chapters_seen`
entry names a chapter node already in the accumulator. -/
theorem exportFold_parents (chs : List ChapterRec) (claims : List Claim)
    (outcomes : List Outcome) (ts : List Theme) (acc : List GNode)
    (sn : SeenMap)
    (h1 : ∀ n ∈ acc, parentOk acc n)
    (h2 : ∀ e ∈ sn, ∃ p ∈ acc, p.id = e.2 ∧ p.type = "chapter") :
    (∀ n ∈ (ts.foldl (exportStep chs claims outcomes) (acc, sn)).1,
        parentOk (ts.foldl (exportStep chs claims outcomes) (acc, sn)).1 n)
    ∧ (∀ e ∈ (ts.foldl (exportStep chs claims outcomes) (acc, sn)).2,
        ∃ p ∈ (ts.foldl (exportStep chs claims outcomes) (acc, sn)).1,
          p.id = e.2 ∧ p.type = "chapter") := by
  induction ts generalizing acc sn with
  | nil => exact ⟨h1, h2⟩
  | cons t rest ih =>
    rw [List.foldl_cons]
    have hstep : exportStep chs claims outcomes (acc, sn) t
        = (acc ++ (themeNodeOf claims outcomes t
              :: ((exportClaimNodes chs claims t sn).1
                  ++ exportOutcomeNodes outcomes t)),
           (exportClaimNodes chs claims t sn).2) := rfl
    rw [hstep]
    have hinner := claimFold_parents chs claims t acc t.claim_indices ([], sn)
      (by intro n hn; simp at hn)
      (by
        intro e he
        obtain ⟨p, hp, hpid, hpt⟩ := h2 e he
        exact ⟨p, Or.inl hp, hpid, hpt⟩)
    have hembed : ∀ p, (p ∈ acc
          ∨ p ∈ (t.claim_indices.foldl (claimNodeStep chs claims t) ([], sn)).1) →
        p ∈ acc ++ (themeNodeOf claims outcomes t
            :: ((exportClaimNodes chs claims t sn).1
                ++ exportOutcomeNodes outcomes t)) := by
      intro p hp
      rcases hp with hp | hp
      · exact List.mem_append_left _ hp
      · exact List.mem_append_right _ (List.mem_cons_of_mem _
          (List.mem_append_left _ hp))
    refine ih _ _ ?_ ?_
    · intro n hn
      rcases List.mem_append.mp hn with hn | hn
      · exact parentOk_mono acc _ (fun p hp => List.mem_append_left _ hp) n (h1 n hn)
      · rcases List.mem_cons.mp hn with rfl | hn
        · exact Or.inl rfl
        · rcases List.mem_append.mp hn with hn | hn
          · rcases hinner.1 n hn with h | ⟨p, hp, hpid, hpt⟩
            · refine Or.inr ⟨themeNodeOf claims outcomes t, ?_, ?_, Or.inl rfl⟩
              · exact List.mem_append_right _ (List.mem_cons_self _ _)
              · show t.id = n.parent_id
                rw [h]
            · exact Or.inr ⟨p, hembed p hp, hpid, Or.inr hpt⟩
          · unfold exportOutcomeNodes at hn
            rcases List.mem_map.mp hn with ⟨o, _, rfl⟩
            refine Or.inr ⟨themeNodeOf claims outcomes t, ?_, rfl, Or.inl rfl⟩
            exact List.mem_append_right _ (List.mem_cons_self _ _)
    · intro e he
      obtain ⟨p, hp, hpid, hpt⟩ := hinner.2 e he
      exact ⟨p, hembed p hp, hpid, hpt⟩

/-- Claim C10: the exported graph has an empty `edges` list, and every node's
`parent_id` is either the root or the id of a theme or chapter node that is
itself present in the node list — the structure is a well-formed
parent-pointer tree. -/
theorem c10_parent_pointer_tree (inp : BuilderInput) (claims : List Claim)
    (outcomes : List Outcome) (themes : List Theme) :
    (exportGraph inp claims outcomes themes).edges = []
    ∧ ∀ n ∈ (exportGraph inp claims outcomes themes).nodes,
        parentOk (exportGraph inp claims outcomes themes).nodes n := by
  refine ⟨rfl, ?_⟩
  intro n hn
  have hmain := exportFold_parents inp.chapters claims outcomes themes [] []
    (by intro m hm; simp at hm) (by intro e he; simp at he)
  exact hmain.1 n hn

/-- Witness for C10: the claim node exported for `wfClaims` (index 2) hangs
off node id `theme-001`, which is a theme node present in the graph. -/
theorem c10_parent_pointer_witness :
    (exportGraph plainInput wfClaims wfOutcomes wfThemes).edges = []
    ∧ parentOk (exportGraph plainInput wfClaims wfOutcomes wfThemes).nodes
        ((exportGraph plainInput wfClaims wfOutcomes wfThemes).nodes.getD 2
          defaultGNode) :=
  ⟨(c10_parent_pointer_tree plainInput wfClaims wfOutcomes wfThemes).1,
   (c10_parent_pointer_tree plainInput wfClaims wfOutcomes wfThemes).2
     ((exportGraph plainInput wfClaims wfOutcomes wfThemes).nodes.getD 2
       defaultGNode)
     (by
       rw [List.getD_eq_getElem _ _ (by decide)]
       exact List.getElem_mem _)⟩

/-! ## Claim C8: time-hint selection -/

/-- The seed of a running maximum bounds the result. -/
theorem foldl_max_init_le (l : List Nat) : ∀ b : Nat, b ≤ l.foldl max b := by
  induction l with
  | nil => intro b; exact Nat.le_refl b
  | cons a l ih =>
    intro b
    exact Nat.le_trans (Nat.le_max_left b a) (ih (max b a))

/-- Every element bounds into the running maximum. -/
theorem foldl_max_mem_le (l : List Nat) :
    ∀ (b x : Nat), x ∈ l → x ≤ l.foldl max b := by
  induction l with
  | nil =>
    intro b x hx
    exact absurd hx (List.not_mem_nil x)
  | cons a l ih =>
    intro b x hx
    rcases List.mem_cons.mp hx with rfl | hx
    · exact Nat.le_trans (Nat.le_max_right b x) (foldl_max_init_le l (max b x))
    · exact ih (max b a) x hx

/-- A running maximum over elements all below the seed is the seed. -/
theorem foldl_max_all_le (l : List Nat) :
    ∀ b : Nat, (∀ x ∈ l, x ≤ b) → l.foldl max b = b := by
  induction l with
  | nil => intro b _; rfl
  | cons a l ih =>
    intro b h
    have ha : a ≤ b := h a (List.mem_cons_self a l)
    rw [List.foldl_cons, Nat.max_eq_left ha]
    exact ih b (fun x hx => h x (List.mem_cons_of_mem a hx))

/-- The running maximum is the seed or one of the elements. -/
theorem foldl_max_init_or_mem (l : List Nat) :
    ∀ b : Nat, l.foldl max b = b ∨ l.foldl max b ∈ l := by
  induction l with
  | nil => intro b; exact Or.inl rfl
  | cons a l ih =>
    intro b
    rw [List.foldl_cons]
    rcases ih (max b a) with h | h
    · rw [h]
      rcases max_choice b a with h2 | h2
      · exact Or.inl h2
      · exact Or.inr (by rw [h2]; exact List.mem_cons_self a l)
    · exact Or.inr (List.mem_cons_of_mem a h)

/-- Characterization of the best-entry scan of `_match_time_hint` when every
entry carries a timestamp: the running best score is the maximum of the
scores, and the retained time is the first entry that attains the maximum
(if any entry improves on the seed). -/
theorem scanFold_eq (f : TLEntry → Nat) (l : List TLEntry) :
    ∀ (b : Nat) (t : Option Nat), (∀ e ∈ l, e.timestamp_ms.isSome = true) →
    l.foldl (fun (acc : Nat × Option Nat) e =>
        if f e > acc.1 ∧ e.timestamp_ms.isSome then (f e, e.timestamp_ms) else acc)
      (b, t)
    = ((l.map f).foldl max b,
       if l.any (fun e => decide (b < f e)) then
         (l.find? (fun e => decide (f e = (l.map f).foldl max b))).bind
           (fun e => e.timestamp_ms)
       else t) := by
  induction l with
  | nil =>
    intro b t _
    rfl
  | cons e l ih =>
    intro b t h
    have hts : e.timestamp_ms.isSome = true := h e (List.mem_cons_self _ _)
    have hl : ∀ x ∈ l, x.timestamp_ms.isSome = true :=
      fun x hx => h x (List.mem_cons_of_mem _ hx)
    rw [List.foldl_cons]
    dsimp only
    rw [List.map_cons, List.foldl_cons]
    by_cases hc : f e > b
    · rw [if_pos ⟨hc, hts⟩, ih (f e) e.timestamp_ms hl,
        Nat.max_eq_right (Nat.le_of_lt hc)]
      have hcond : (e :: l).any (fun x => decide (b < f x)) = true := by
        rw [List.any_cons, decide_eq_true hc]
        rfl
      rw [if_pos hcond]
      by_cases hany : l.any (fun x => decide (f e < f x)) = true
      · rw [if_pos hany]
        obtain ⟨x, hx, hxlt⟩ := List.any_eq_true.mp hany
        have hlt : f e < f x := of_decide_eq_true hxlt
        have hle : f x ≤ (l.map f).foldl max (f e) :=
          foldl_max_mem_le (l.map f) (f e) (f x) (List.mem_map_of_mem f hx)
        have hne : ¬ (decide (f e = (l.map f).foldl max (f e)) = true) := by
          simp only [decide_eq_true_eq]
          omega
        rw [@List.find?_cons_of_neg TLEntry
          (fun x => decide (f x = (l.map f).foldl max (f e))) e l hne]
      · rw [if_neg hany]
        have hall : ∀ y ∈ l.map f, y ≤ f e := by
          intro y hy
          rcases List.mem_map.mp hy with ⟨x, hx, rfl⟩
          by_contra hgt
          exact hany (List.any_eq_true.mpr
            ⟨x, hx, decide_eq_true (Nat.lt_of_not_le hgt)⟩)
        have hM : (l.map f).foldl max (f e) = f e := foldl_max_all_le (l.map f) (f e) hall
        have hpos : decide (f e = (l.map f).foldl max (f e)) = true := by
          rw [hM]
          exact decide_eq_true rfl
        rw [@List.find?_cons_of_pos TLEntry
          (fun x => decide (f x = (l.map f).foldl max (f e))) e l hpos]
        rfl
    · rw [if_neg (fun hand => hc hand.1), ih b t hl,
        Nat.max_eq_left (Nat.le_of_not_lt hc)]
      have hd : decide (b < f e) = false := decide_eq_false hc
      rw [List.any_cons, hd, Bool.false_or]
      by_cases hany : l.any (fun x => decide (b < f x)) = true
      · rw [if_pos hany, if_pos hany]
        obtain ⟨x, hx, hxlt⟩ := List.any_eq_true.mp hany
        have hlt : b < f x := of_decide_eq_true hxlt
        have hle : f x ≤ (l.map f).foldl max b :=
          foldl_max_mem_le (l.map f) b (f x) (List.mem_map_of_mem f hx)
        have hfe : f e ≤ b := Nat.le_of_not_lt hc
        have hne : ¬ (decide (f e = (l.map f).foldl max b) = true) := by
          simp only [decide_eq_true_eq]
          omega
        rw [@List.find?_cons_of_neg TLEntry
          (fun x => decide (f x = (l.map f).foldl max b)) e l hne]
      · rw [if_neg hany, if_neg hany]

/-- Counterexample to C8 as stated: when the highest-scoring timeline entry
carries no timestamp, the code does not return "the timestamp of the
highest-scoring entry" (the spec's rule) but the best among timestamped
entries only. -/
theorem c8_time_hint_counterexample :
    ¬ (matchTimeHint c8DivergeEntries "alpha bravo charlie" []
        = specTimeHint c8DivergeEntries "alpha bravo charlie" []) := by
  decide

/-- Claim C8 (amended): whenever every timeline entry carries a timestamp —
the only case the spec's rule addresses — `_match_time_hint` agrees exactly
with the spec's selection rule: score every entry, pick the highest score
with ties broken by first scan order, accept only if the score reaches 2.
(When entries may lack timestamps, the code maximizes over timestamped
entries only; see the counterexample.) -/
theorem c8_time_hint_amended (entries : List TLEntry) (text : String)
    (participants : List String)
    (h : ∀ e ∈ entries, e.timestamp_ms.isSome = true) :
    matchTimeHint entries text participants
      = specTimeHint entries text participants := by
  by_cases hne : entries = []
  · subst hne
    rfl
  · unfold matchTimeHint
    rw [if_neg hne]
    dsimp only
    rw [scanFold_eq (entryScore (tokenize text) ((participants.map pyLower).dedup))
      entries 0 none h]
    unfold specTimeHint
    dsimp only
    by_cases hM2 : (entries.map
        (entryScore (tokenize text) ((participants.map pyLower).dedup))).foldl max 0 ≥ 2
    · rw [if_pos hM2, if_pos hM2]
      have hmem : (entries.map
            (entryScore (tokenize text) ((participants.map pyLower).dedup))).foldl max 0
          ∈ entries.map (entryScore (tokenize text) ((participants.map pyLower).dedup)) := by
        rcases foldl_max_init_or_mem (entries.map
            (entryScore (tokenize text) ((participants.map pyLower).dedup))) 0 with h0 | h0
        · rw [h0] at hM2
          omega
        · exact h0
      rcases List.mem_map.mp hmem with ⟨e, he, heq⟩
      have hany : entries.any (fun e => decide (0 < entryScore (tokenize text)
          ((participants.map pyLower).dedup) e)) = true := by
        refine List.any_eq_true.mpr ⟨e, he, decide_eq_true ?_⟩
        omega
      rw [if_pos hany]
    · rw [if_neg hM2, if_neg hM2]

/-- Witness for C8's amended theorem: on three fully timestamped entries the
code and the spec rule agree. -/
theorem c8_time_hint_witness :
    (∀ e ∈ c8Entries, e.timestamp_ms.isSome = true)
    ∧ matchTimeHint c8Entries "Alice presented the quarterly roadmap"
        ["Alice Smith"]
      = specTimeHint c8Entries "Alice presented the quarterly roadmap"
        ["Alice Smith"] :=
  ⟨by decide,
   c8_time_hint_amended c8Entries "Alice presented the quarterly roadmap"
     ["Alice Smith"] (by decide)⟩

/-! ## Claim C5 (amended): exactly when clustering raises -/

/-- A conditional whose branches are both `ok` is `ok`. -/
theorem exists_ok_of_ite {α β : Type} (c : Prop) [Decidable c] (a b : α) :
    ∃ x, (if c then Except.ok a else Except.ok b) = (Except.ok x : Except β α) := by
  by_cases h : c
  · exact ⟨a, if_pos h⟩
  · exact ⟨b, if_neg h⟩

/-- `_cluster_claims_into_themes` succeeds exactly when there are no claims
(deterministic fallback) or TF-IDF fitting yields a nonempty pruned
vocabulary; otherwise the `ValueError` propagates. -/
theorem cluster_ok_iff (maxVisible : Nat) (oracle : KMOracle)
    (claims : List Claim) :
    (∃ cr, clusterClaimsIntoThemes maxVisible oracle claims = Except.ok cr)
    ↔ (claims = []
        ∨ (fitVocabulary (claims.map (fun c => c.text))).isSome = true) := by
  unfold clusterClaimsIntoThemes
  by_cases hc : claims = []
  · rw [if_pos hc]
    exact ⟨fun _ => Or.inl hc, fun _ => ⟨_, rfl⟩⟩
  · rw [if_neg hc]
    dsimp only
    cases hv : fitVocabulary (claims.map (fun c => c.text)) with
    | none =>
      constructor
      · rintro ⟨cr, hcr⟩
        exact Except.noConfusion hcr
      · intro hor
        rcases hor with h | h
        · exact absurd h hc
        · exact absurd h (by simp)
    | some featureNames =>
      constructor
      · intro _
        exact Or.inr rfl
      · intro _
        dsimp only
        exact exists_ok_of_ite _ _ _

/-- Claim C5 (amended): `build()` raises no exception exactly on inputs whose
claim list (after the attendance fillers) is empty or admits a nonempty
TF-IDF vocabulary after `max_df` pruning; in particular a single-claim input
empties the vocabulary (every term has document frequency `1 > 0.9 × 1`) and
the `ValueError` propagates — refuting the unconditional never-raises claim.
The cluster count is clamped as the spec says: at least 1, at most the claim
count, and at most the feature count. -/
theorem c5_no_raise_amended (cap : Nat) (oracle : KMOracle)
    (inp : BuilderInput) :
    ((∃ g, buildMindmap cap oracle inp = Except.ok g)
      ↔ (ensureParticipationClaims (rosterOf inp) (extractClaims inp)
            (extractOutcomes inp) = []
          ∨ (fitVocabulary ((ensureParticipationClaims (rosterOf inp)
                (extractClaims inp) (extractOutcomes inp)).map
              (fun c => c.text))).isSome = true))
    ∧ ∀ n nF : Nat, 0 < n →
        1 ≤ nClustersFor cap n nF ∧ nClustersFor cap n nF ≤ n
          ∧ (0 < nF → nClustersFor cap n nF ≤ nF) := by
  constructor
  · unfold buildMindmap
    dsimp only
    cases hcl : clusterClaimsIntoThemes cap oracle
        (ensureParticipationClaims (rosterOf inp) (extractClaims inp)
          (extractOutcomes inp)) with
    | error e =>
      constructor
      · rintro ⟨g, hg⟩
        exact Except.noConfusion hg
      · intro hor
        obtain ⟨cr, hcr⟩ := (cluster_ok_iff cap oracle _).mpr hor
        rw [hcl] at hcr
        exact Except.noConfusion hcr
    | ok cr =>
      constructor
      · intro _
        exact (cluster_ok_iff cap oracle _).mp ⟨cr, hcl⟩
      · intro _
        exact ⟨_, rfl⟩
  · intro n nF hn
    unfold nClustersFor
    dsimp only
    by_cases hf : nF < min (min (cap + 2) (max 2 (n / 4))) n
    · rw [if_pos hf, if_neg (show ¬ (max 1 nF = 0) by omega)]
      omega
    · rw [if_neg hf,
        if_neg (show ¬ (min (min (cap + 2) (max 2 (n / 4))) n = 0) by omega)]
      omega

/-- Witness for C5's amended theorem: the empty meeting builds successfully,
and the clamps hold at `n = 8`, `nF = 5`. -/
theorem c5_no_raise_witness :
    (∃ g, buildMindmap 7 kmTrivial plainInput = Except.ok g)
    ∧ (1 ≤ nClustersFor 7 8 5 ∧ nClustersFor 7 8 5 ≤ 8
        ∧ nClustersFor 7 8 5 ≤ 5) :=
  ⟨(c5_no_raise_amended 7 kmTrivial plainInput).1.mpr (Or.inl (by decide)),
   by
    have h := (c5_no_raise_amended 7 kmTrivial plainInput).2 8 5 (by decide)
    exact ⟨h.1, h.2.1, h.2.2 (by decide)⟩⟩

/-! ## Claim C4: every outcome ends attached to a surviving theme -/

/-- A two-argument selection fold stays inside any superset of its inputs. -/
theorem foldl_pick_mem (S : List (Nat × Nat)) (t : List (Nat × Nat)) :
    ∀ acc : Nat × Nat, acc ∈ S → (∀ x ∈ t, x ∈ S) →
    t.foldl (fun a b => if a.1 < b.1 ∨ (a.1 = b.1 ∧ a.2 < b.2) then b else a)
      acc ∈ S := by
  induction t with
  | nil =>
    intro acc ha _
    exact ha
  | cons b t ih =>
    intro acc ha hall
    rw [List.foldl_cons]
    by_cases hc : acc.1 < b.1 ∨ (acc.1 = b.1 ∧ acc.2 < b.2)
    · rw [if_pos hc]
      exact ih _ (hall b (List.mem_cons_self _ _))
        (fun x hx => hall x (List.mem_cons_of_mem _ hx))
    · rw [if_neg hc]
      exact ih _ ha (fun x hx => hall x (List.mem_cons_of_mem _ hx))

/-- Python's `max` over a nonempty pair list returns one of the pairs. -/
theorem pyMaxPairs_mem (l : List (Nat × Nat)) (h : l ≠ []) : pyMaxPairs l ∈ l := by
  cases l with
  | nil => exact absurd rfl h
  | cons a t =>
    unfold pyMaxPairs
    exact foldl_pick_mem (a :: t) t a (List.mem_cons_self a t)
      (fun x hx => List.mem_cons_of_mem a hx)

/-- The attachment choice is always a valid theme index. -/
theorem attachChoice_lt (oracle : KMOracle) (features : Option (List String))
    (claims : List Claim) (themes : List Theme) (o : Outcome)
    (hval : oracle.Valid) (hth : themes ≠ []) :
    attachChoice oracle features claims themes (themeTextsOf claims themes) o
      < themes.length := by
  have hlen0 : 0 < themes.length := List.length_pos.mpr hth
  have htts : (themeTextsOf claims themes).length = themes.length := by
    unfold themeTextsOf
    exact List.length_map _ _
  have httsne : themeTextsOf claims themes ≠ [] := by
    intro hnil
    rw [hnil] at htts
    simp at htts
    omega
  have hpick1 : (oracle.simPick o.title (themeTextsOf claims themes)).1
      < themes.length := by
    have h := hval.2.2 o.title (themeTextsOf claims themes) httsne
    rw [htts] at h
    exact h
  have hbest : (themes.enum.map (fun p => (participantMentions claims o p.2, p.1))) ≠ [] →
      (pyMaxPairs (themes.enum.map
        (fun p => (participantMentions claims o p.2, p.1)))).2 < themes.length := by
    intro hne
    have hmem := pyMaxPairs_mem _ hne
    rcases List.mem_map.mp hmem with ⟨q, hq, heq⟩
    have hlt := List.fst_lt_of_mem_enum hq
    rw [← heq]
    exact hlt
  unfold attachChoice
  dsimp only
  by_cases hf : features.isSome = true
  · rw [if_pos hf]
    by_cases hp2 : (oracle.simPick o.title (themeTextsOf claims themes)).2 = true
    · rw [if_pos hp2]
      by_cases hcond : (themes.enum.map
            (fun p => (participantMentions claims o p.2, p.1))) ≠ []
          ∧ (pyMaxPairs (themes.enum.map
            (fun p => (participantMentions claims o p.2, p.1)))).1 > 0
      · rw [if_pos hcond]
        exact hbest hcond.1
      · rw [if_neg hcond]
        exact hpick1
    · rw [if_neg hp2]
      exact hpick1
  · rw [if_neg hf]
    rw [if_pos (show ((0 : Nat), true).2 = true from rfl)]
    by_cases hcond : (themes.enum.map
          (fun p => (participantMentions claims o p.2, p.1))) ≠ []
        ∧ (pyMaxPairs (themes.enum.map
          (fun p => (participantMentions claims o p.2, p.1)))).1 > 0
    · rw [if_pos hcond]
      exact hbest hcond.1
    · rw [if_neg hcond]
      exact hlen0

/-- After `_attach_outcomes_to_themes` every outcome points at a theme of the
updated list, and that theme's `outcome_ids` records the outcome. -/
theorem attach_gives_attachment (oracle : KMOracle)
    (features : Option (List String)) (claims : List Claim)
    (outcomes : List Outcome) (themes : List Theme)
    (hval : oracle.Valid) (hth : themes ≠ []) :
    ∀ o ∈ (attachOutcomesToThemes oracle features claims outcomes themes).1,
      ∃ t ∈ (attachOutcomesToThemes oracle features claims outcomes themes).2,
        o.theme_id = some t.id ∧ o.id ∈ t.outcome_ids := by
  unfold attachOutcomesToThemes
  rw [if_neg hth]
  dsimp only
  intro o' ho'
  rcases List.mem_map.mp ho' with ⟨p, hp, hpe⟩
  rcases List.mem_map.mp hp with ⟨o, ho, hoe⟩
  subst hoe
  subst hpe
  dsimp only
  have hc : attachChoice oracle features claims themes
      (themeTextsOf claims themes) o < themes.length :=
    attachChoice_lt oracle features claims themes o hval hth
  have hmem_enum : (attachChoice oracle features claims themes
      (themeTextsOf claims themes) o,
      themes[attachChoice oracle features claims themes
        (themeTextsOf claims themes) o]) ∈ themes.enum := by
    have h1 : attachChoice oracle features claims themes
        (themeTextsOf claims themes) o < themes.enum.length := by
      rw [List.enum_length]
      exact hc
    have h2 := List.getElem_mem h1
    rwa [List.getElem_enum] at h2
  refine ⟨_, List.mem_map_of_mem _ hmem_enum, ?_, ?_⟩
  · show some ((themes.getD (attachChoice oracle features claims themes
        (themeTextsOf claims themes) o) (defaultTheme [])).id) = _
    rw [List.getD_eq_getElem themes (defaultTheme []) hc]
  · show o.id ∈ _
    dsimp only
    refine List.mem_append_right _ ?_
    refine List.mem_map.mpr ⟨(o, attachChoice oracle features claims themes
      (themeTextsOf claims themes) o), ?_, rfl⟩
    refine List.mem_filter.mpr ⟨List.mem_map_of_mem _ ho, ?_⟩
    exact decide_eq_true rfl

/-- The visibility cap never unhooks an outcome: if every outcome points at a
theme (of the pre-cap list) that records it, then after the cap every outcome
points at a theme of the post-cap list. -/
theorem capFold_keeps_attachment (cap : Nat) (claims : List Claim)
    (outcomes : List Outcome) (themes1 : List Theme)
    (h : ∀ o ∈ outcomes, ∃ t ∈ themes1,
        o.theme_id = some t.id ∧ o.id ∈ t.outcome_ids) :
    ∀ o ∈ (capFold cap claims outcomes themes1).2.1,
      ∃ t ∈ (capFold cap claims outcomes themes1).2.2,
        o.theme_id = some t.id := by
  unfold capFold
  by_cases hlen : themes1.length > cap
  · rw [if_pos hlen]
    dsimp only
    by_cases hov : (sortThemesDesc themes1).drop cap ≠ []
    · rw [if_pos hov]
      dsimp only
      intro o' ho'
      rcases List.mem_map.mp ho' with ⟨o, ho, hoe⟩
      subst hoe
      by_cases hin : (mergedTheme ((sortThemesDesc themes1).drop cap)).outcome_ids.contains o.id = true
      · rw [if_pos hin]
        refine ⟨mergedTheme ((sortThemesDesc themes1).drop cap), ?_, rfl⟩
        refine List.mem_append_right _ ?_
        have hcond : (mergedTheme ((sortThemesDesc themes1).drop cap)).claim_indices ≠ []
            ∨ (mergedTheme ((sortThemesDesc themes1).drop cap)).outcome_ids ≠ [] := by
          refine Or.inr ?_
          intro hnil
          rw [hnil] at hin
          exact absurd hin (by simp)
        rw [if_pos hcond]
        exact List.mem_singleton.mpr rfl
      · rw [if_neg hin]
        obtain ⟨t, ht, hid, hoid⟩ := h o ho
        have htsorted : t ∈ sortThemesDesc themes1 :=
          (sortThemesDesc_perm themes1).mem_iff.mpr ht
        rw [← List.take_append_drop cap (sortThemesDesc themes1)] at htsorted
        rcases List.mem_append.mp htsorted with htk | htd
        · exact ⟨t, List.mem_append_left _ htk, hid⟩
        · exfalso
          apply hin
          refine List.elem_eq_true_of_mem ?_
          unfold mergedTheme
          dsimp only
          exact List.mem_flatten.mpr ⟨t.outcome_ids, List.mem_map_of_mem _ htd, hoid⟩
    · rw [if_neg hov]
      intro o ho
      push_neg at hov
      have h1 : (sortThemesDesc themes1).length ≤ cap := List.drop_eq_nil_iff.mp hov
      have h2 : (sortThemesDesc themes1).length = themes1.length :=
        (sortThemesDesc_perm themes1).length_eq
      omega
  · rw [if_neg hlen]
    intro o ho
    obtain ⟨t, ht, hid, _⟩ := h o ho
    exact ⟨t, ht, hid⟩

/-- The length of the outcome list is unchanged by the visibility cap. -/
theorem capFold_outcomes_len (cap : Nat) (claims : List Claim)
    (outcomes : List Outcome) (themes1 : List Theme) :
    (capFold cap claims outcomes themes1).2.1.length = outcomes.length := by
  unfold capFold
  by_cases h1 : themes1.length > cap
  · rw [if_pos h1]
    dsimp only
    by_cases h2 : (sortThemesDesc themes1).drop cap ≠ []
    · rw [if_pos h2]
      dsimp only
      exact List.length_map _ _
    · rw [if_neg h2]
  · rw [if_neg h1]

/-- Rebalancing keeps every outcome attached to a surviving theme. -/
theorem rebalance_keeps_attachment (cap : Nat) (claims : List Claim)
    (outcomes : List Outcome) (themes : List Theme)
    (h : ∀ o ∈ outcomes, ∃ t ∈ themes,
        o.theme_id = some t.id ∧ o.id ∈ t.outcome_ids) :
    ∀ o ∈ (rebalanceThemeVisibility cap claims outcomes themes).2.1,
      ∃ t ∈ (rebalanceThemeVisibility cap claims outcomes themes).2.2,
        o.theme_id = some t.id := by
  unfold rebalanceThemeVisibility
  by_cases hth : themes = []
  · rw [if_pos hth]
    intro o ho
    obtain ⟨t, ht, _⟩ := h o ho
    rw [hth] at ht
    exact absurd ht (List.not_mem_nil t)
  · rw [if_neg hth]
    dsimp only
    have hpop : ∀ o ∈ outcomes, ∃ t ∈ populatedThemes themes,
        o.theme_id = some t.id ∧ o.id ∈ t.outcome_ids := by
      intro o ho
      obtain ⟨t, ht, hid, hoid⟩ := h o ho
      refine ⟨t, List.mem_filter.mpr ⟨ht, ?_⟩, hid, hoid⟩
      exact decide_eq_true (Or.inr (List.ne_nil_of_mem hoid))
    intro o ho
    by_cases hpe : populatedThemes themes = []
    · exfalso
      rw [if_pos hpe] at ho
      have hne : outcomes ≠ [] := by
        intro hnil
        rw [hnil] at ho
        have hlen0 := capFold_outcomes_len cap claims [] (themes.take 1)
        rw [List.length_nil] at hlen0
        have hpos := List.length_pos.mpr (List.ne_nil_of_mem ho)
        omega
      obtain ⟨o0, ho0⟩ := List.exists_mem_of_ne_nil outcomes hne
      obtain ⟨t, ht, _, _⟩ := hpop o0 ho0
      rw [hpe] at ht
      exact absurd ht (List.not_mem_nil t)
    · rw [if_neg hpe] at ho ⊢
      obtain ⟨t, htm, hid⟩ := capFold_keeps_attachment cap claims outcomes
        (populatedThemes themes) hpop o ho
      exact ⟨chaptersRecompute (capFold cap claims outcomes
          (populatedThemes themes)).1 t,
        List.mem_map_of_mem _ htm, hid⟩

/-- Claim C4: with a valid clustering oracle and a nonempty theme list, after
attaching outcomes and rebalancing, every outcome's `theme_id` names a theme
present in the final theme list — including when the similarity is weak
(participant fallback or index 0) and when the original theme was folded into
"More Topics". -/
theorem c4_outcome_attached (cap : Nat) (oracle : KMOracle)
    (features : Option (List String)) (claims : List Claim)
    (outcomes : List Outcome) (themes : List Theme)
    (hval : oracle.Valid) (hth : themes ≠ []) :
    ∀ o ∈ (rebalanceThemeVisibility cap claims
        (attachOutcomesToThemes oracle features claims outcomes themes).1
        (attachOutcomesToThemes oracle features claims outcomes themes).2).2.1,
      ∃ t ∈ (rebalanceThemeVisibility cap claims
          (attachOutcomesToThemes oracle features claims outcomes themes).1
          (attachOutcomesToThemes oracle features claims outcomes themes).2).2.2,
        o.theme_id = some t.id := by
  have hatt := attach_gives_attachment oracle features claims outcomes themes hval hth
  exact rebalance_keeps_attachment cap claims _ _ hatt

/-- Witness for C4: the single outcome of `c4Outs` ends attached to
`theme-001`, which survives rebalancing. -/
theorem c4_outcome_attached_witness :
    ∃ t ∈ (rebalanceThemeVisibility 7 []
        (attachOutcomesToThemes kmTrivial none [] c4Outs c4Themes).1
        (attachOutcomesToThemes kmTrivial none [] c4Outs c4Themes).2).2.2,
      ((rebalanceThemeVisibility 7 []
          (attachOutcomesToThemes kmTrivial none [] c4Outs c4Themes).1
          (attachOutcomesToThemes kmTrivial none [] c4Outs c4Themes).2).2.1.getD 0
        defaultOutcome).theme_id = some t.id :=
  c4_outcome_attached 7 kmTrivial none [] c4Outs c4Themes kmTrivial_valid
    (by decide)
    ((rebalanceThemeVisibility 7 []
        (attachOutcomesToThemes kmTrivial none [] c4Outs c4Themes).1
        (attachOutcomesToThemes kmTrivial none [] c4Outs c4Themes).2).2.1.getD 0
      defaultOutcome)
    (by
      rw [List.getD_eq_getElem _ _ (by decide)]
      exact List.getElem_mem _)

/-! ## Claim C9 (amended): node-id uniqueness and exactly-once claim export -/

/-- Distinct data lists give distinct strings. -/
theorem string_ne_of_data_ne (a b : String) (h : a.data ≠ b.data) : a ≠ b :=
  fun he => h (by rw [he])

/-- Strings whose data start with different characters differ. -/
theorem ne_of_head (x y : String) (a b : Char) (xs ys : List Char)
    (hx : x.data = a :: xs) (hy : y.data = b :: ys) (hab : a ≠ b) : x ≠ y := by
  intro he
  rw [he, hy] at hx
  injection hx with h1 _
  exact hab h1.symm

/-- A theme id's data starts with `t`. -/
theorem themeId_head (tid : String) (h : ThemeIdForm tid) :
    ∃ zs, tid.data = 't' :: zs := by
  obtain ⟨r, hr, _, _⟩ := h
  refine ⟨"heme-".data ++ r, ?_⟩
  rw [hr]
  rfl

/-- A chapter node id's data starts with `t`. -/
theorem chapId_head (tid s : String) (r : List Char)
    (hr : tid.data = "theme-".data ++ r) :
    ∃ zs, (tid ++ "-chapter-" ++ s).data = 't' :: zs := by
  refine ⟨(("heme-".data ++ r) ++ "-chapter-".data) ++ s.data, ?_⟩
  rw [String.data_append, String.data_append, hr]
  rfl

/-- A theme id contains exactly one hyphen. -/
theorem themeId_hyphens (tid : String) (h : ThemeIdForm tid) :
    tid.data.count '-' = 1 := by
  obtain ⟨r, hr, _, hnr⟩ := h
  rw [hr, List.count_append, List.count_eq_zero.mpr hnr]
  decide

/-- A chapter node id contains at least three hyphens. -/
theorem chapId_hyphens_ge (tid s : String) (h : ThemeIdForm tid) :
    3 ≤ (tid ++ "-chapter-" ++ s).data.count '-' := by
  rw [String.data_append, String.data_append, List.count_append,
    List.count_append, themeId_hyphens tid h]
  have h2 : "-chapter-".data.count '-' = 2 := by decide
  omega

/-- A theme id is never a chapter node id. -/
theorem themeId_ne_chapId (tid1 tid2 s : String) (h1 : ThemeIdForm tid1)
    (h2 : ThemeIdForm tid2) : tid1 ≠ tid2 ++ "-chapter-" ++ s := by
  intro he
  have hc1 := themeId_hyphens tid1 h1
  have hc2 := chapId_hyphens_ge tid2 s h2
  rw [he] at hc1
  omega

/-- `takeWhile`/`dropWhile` across a hyphen-free prefix followed by a
hyphen. -/
theorem takeWhile_nohyphen (l rest : List Char) (hl : '-' ∉ l) :
    (l ++ '-' :: rest).takeWhile (fun c => !decide (c = '-')) = l
    ∧ (l ++ '-' :: rest).dropWhile (fun c => !decide (c = '-')) = '-' :: rest := by
  induction l with
  | nil => simp [List.takeWhile, List.dropWhile]
  | cons c cs ih =>
    have hc : c ≠ '-' := fun he => hl (by rw [he]; exact List.mem_cons_self _ _)
    obtain ⟨h1, h2⟩ := ih (fun hx => hl (List.mem_cons_of_mem c hx))
    simp only [List.cons_append, List.takeWhile_cons, List.dropWhile_cons,
      decide_eq_false hc, Bool.not_false]
    simp [h1, h2]

/-- Chapter node ids determine the theme id and the slug. -/
theorem chapId_inj (tid1 tid2 s1 s2 : String) (h1 : ThemeIdForm tid1)
    (h2 : ThemeIdForm tid2)
    (he : tid1 ++ "-chapter-" ++ s1 = tid2 ++ "-chapter-" ++ s2) :
    tid1 = tid2 ∧ s1 = s2 := by
  obtain ⟨r1, hr1, hne1, hnh1⟩ := h1
  obtain ⟨r2, hr2, hne2, hnh2⟩ := h2
  have hd : ((tid1.data ++ "-chapter-".data) ++ s1.data)
      = ((tid2.data ++ "-chapter-".data) ++ s2.data) := by
    have hcd := congrArg String.data he
    rwa [String.data_append, String.data_append, String.data_append,
      String.data_append] at hcd
  rw [hr1, hr2] at hd
  have e1 : (("theme-".data ++ r1) ++ "-chapter-".data) ++ s1.data
      = "theme-".data ++ (r1 ++ '-' :: ("chapter-".data ++ s1.data)) := by
    rw [List.append_assoc, List.append_assoc]
    rfl
  have e2 : (("theme-".data ++ r2) ++ "-chapter-".data) ++ s2.data
      = "theme-".data ++ (r2 ++ '-' :: ("chapter-".data ++ s2.data)) := by
    rw [List.append_assoc, List.append_assoc]
    rfl
  rw [e1, e2] at hd
  have hd2 : r1 ++ '-' :: ("chapter-".data ++ s1.data)
      = r2 ++ '-' :: ("chapter-".data ++ s2.data) := List.append_cancel_left hd
  have ht1 := takeWhile_nohyphen r1 ("chapter-".data ++ s1.data) hnh1
  have ht2 := takeWhile_nohyphen r2 ("chapter-".data ++ s2.data) hnh2
  have hrr : r1 = r2 := by
    rw [← ht1.1, ← ht2.1, hd2]
  have hdd : '-' :: ("chapter-".data ++ s1.data)
      = '-' :: ("chapter-".data ++ s2.data) := by
    rw [← ht1.2, ← ht2.2, hd2]
  injection hdd with _ hdd2
  have hss : s1.data = s2.data := List.append_cancel_left hdd2
  constructor
  · apply String.ext
    rw [hr1, hr2, hrr]
  · exact String.ext hss

/-- A lookup skips entries whose key cannot match. -/
theorem seenLookup_append_of_fresh (seen sn0 : SeenMap) (key : String × String)
    (h : ∀ e ∈ seen, e.1 ≠ key) :
    seenLookup (seen ++ sn0) key = seenLookup sn0 key := by
  unfold seenLookup
  have hfind : seen.find? (fun p => p.1 = key) = none := by
    apply List.find?_eq_none.mpr
    intro e he
    simp only [decide_eq_true_eq]
    exact h e he
  rw [List.find?_append, hfind]
  rfl

/-- One claim-loop step ignores seen entries of other themes. -/
theorem claimNodeStep_append_seen (chs : List ChapterRec) (claims : List Claim)
    (t : Theme) (seen : SeenMap) (hseen : ∀ e ∈ seen, e.1.1 ≠ t.id)
    (ns : List GNode) (sn0 : SeenMap) (ci : Nat) :
    claimNodeStep chs claims t (ns, seen ++ sn0) ci
      = ((claimNodeStep chs claims t (ns, sn0) ci).1,
         seen ++ (claimNodeStep chs claims t (ns, sn0) ci).2) := by
  unfold claimNodeStep
  dsimp only
  by_cases htr : truthyOS (claims.getD ci defaultClaim).chapter_id = true
  · rw [if_pos htr, if_pos htr]
    have hkey : ∀ e ∈ seen,
        e.1 ≠ (t.id, (claims.getD ci defaultClaim).chapter_id.getD "") := by
      intro e he heq
      exact hseen e he (by rw [heq])
    rw [seenLookup_append_of_fresh seen sn0 _ hkey]
    cases hlk : seenLookup sn0
        (t.id, (claims.getD ci defaultClaim).chapter_id.getD "") with
    | some nid => rfl
    | none =>
      dsimp only
      rw [List.append_assoc seen sn0]
  · rw [if_neg htr, if_neg htr]

/-- The claim loop ignores seen entries of other themes. -/
theorem claimFold_append_seen (chs : List ChapterRec) (claims : List Claim)
    (t : Theme) (seen : SeenMap) (hseen : ∀ e ∈ seen, e.1.1 ≠ t.id) :
    ∀ (cis : List Nat) (ns : List GNode) (sn0 : SeenMap),
    cis.foldl (claimNodeStep chs claims t) (ns, seen ++ sn0)
      = ((cis.foldl (claimNodeStep chs claims t) (ns, sn0)).1,
         seen ++ (cis.foldl (claimNodeStep chs claims t) (ns, sn0)).2) := by
  intro cis
  induction cis with
  | nil => intro ns sn0; rfl
  | cons ci rest ih =>
    intro ns sn0
    rw [List.foldl_cons, List.foldl_cons,
      claimNodeStep_append_seen chs claims t seen hseen ns sn0 ci]
    exact ih (claimNodeStep chs claims t (ns, sn0) ci).1
      (claimNodeStep chs claims t (ns, sn0) ci).2

/-- Every seen entry after the claim loop is inherited or keyed by the
current theme. -/
theorem claimFold_seen_keys (chs : List ChapterRec) (claims : List Claim)
    (t : Theme) :
    ∀ (cis : List Nat) (s : List GNode × SeenMap),
    ∀ e ∈ (cis.foldl (claimNodeStep chs claims t) s).2,
      e ∈ s.2 ∨ e.1.1 = t.id := by
  intro cis
  induction cis with
  | nil =>
    intro s e he
    exact Or.inl he
  | cons ci rest ih =>
    intro s e he
    rw [List.foldl_cons] at he
    rcases ih _ e he with h | h
    · rcases claimNodeStep_cases chs claims t s ci with hc | ⟨nid, _, hc⟩ | ⟨cid, hc⟩
      · rw [hc] at h
        exact Or.inl h
      · rw [hc] at h
        exact Or.inl h
      · rw [hc] at h
        rcases List.mem_append.mp h with h2 | h2
        · exact Or.inl h2
        · rcases List.mem_singleton.mp h2 with rfl
          exact Or.inr rfl
    · exact Or.inr h

/-- The claim export of one theme relative to a foreign seen map equals the
export from an empty map, with the foreign entries carried through. -/
theorem exportClaimNodes_append_seen (chs : List ChapterRec)
    (claims : List Claim) (t : Theme) (seen : SeenMap)
    (hseen : ∀ e ∈ seen, e.1.1 ≠ t.id) :
    exportClaimNodes chs claims t seen
      = ((exportClaimNodes chs claims t []).1,
         seen ++ (exportClaimNodes chs claims t []).2) := by
  unfold exportClaimNodes
  have h0 : (([] : List GNode), seen) = (([] : List GNode), seen ++ ([] : SeenMap)) := by
    rw [List.append_nil]
  rw [h0, claimFold_append_seen chs claims t seen hseen t.claim_indices [] []]

/-- With pairwise-distinct theme ids the export is the concatenation of the
per-theme blocks computed independently. -/
theorem exportFold_blocks (chs : List ChapterRec) (claims : List Claim)
    (outcomes : List Outcome) :
    ∀ (ts : List Theme) (acc : List GNode) (seen : SeenMap),
    (∀ e ∈ seen, ∀ t ∈ ts, e.1.1 ≠ t.id) →
    (ts.map Theme.id).Nodup →
    (ts.foldl (exportStep chs claims outcomes) (acc, seen)).1
      = acc ++ (ts.map (fun t =>
          (exportThemeBlock chs claims outcomes t []).1)).flatten := by
  intro ts
  induction ts with
  | nil =>
    intro acc seen _ _
    simp
  | cons t rest ih =>
    intro acc seen hseen hnd
    rw [List.foldl_cons]
    have hfresh : ∀ e ∈ seen, e.1.1 ≠ t.id :=
      fun e he => hseen e he t (List.mem_cons_self _ _)
    have hstep : exportStep chs claims outcomes (acc, seen) t
        = (acc ++ (exportThemeBlock chs claims outcomes t []).1,
           seen ++ (exportClaimNodes chs claims t []).2) := by
      show (acc ++ (exportThemeBlock chs claims outcomes t seen).1,
            (exportThemeBlock chs claims outcomes t seen).2) = _
      unfold exportThemeBlock
      dsimp only
      rw [exportClaimNodes_append_seen chs claims t seen hfresh]
    rw [hstep]
    have hmapped : (t.id :: rest.map Theme.id).Nodup := by
      rw [List.map_cons] at hnd
      exact hnd
    have hn2 := List.nodup_cons.mp hmapped
    have hseen2 : ∀ e ∈ seen ++ (exportClaimNodes chs claims t []).2,
        ∀ x ∈ rest, e.1.1 ≠ x.id := by
      intro e he x hx
      rcases List.mem_append.mp he with he | he
      · exact hseen e he x (List.mem_cons_of_mem _ hx)
      · rcases claimFold_seen_keys chs claims t t.claim_indices ([], []) e he with h0 | h0
        · exact absurd h0 (List.not_mem_nil e)
        · rw [h0]
          intro heq
          exact hn2.1 (heq ▸ List.mem_map_of_mem Theme.id hx)
    rw [ih _ _ hseen2 hn2.2, List.map_cons, List.flatten_cons, List.append_assoc]

/-- In-range `getD` is a member. -/
theorem getD_mem_of_lt (l : List Claim) (d : Claim) (i : Nat)
    (h : i < l.length) : l.getD i d ∈ l := by
  rw [List.getD_eq_getElem l d h]
  exact List.getElem_mem h

/-- Distinct in-range indices give distinct claim ids when the id list has no
duplicates. -/
theorem claimId_inj_idx (claims : List Claim)
    (hcid : (claims.map (fun c => c.id)).Nodup) (i j : Nat)
    (hi : i < claims.length) (hj : j < claims.length)
    (h : (claims.getD i defaultClaim).id = (claims.getD j defaultClaim).id) :
    i = j := by
  rw [List.getD_eq_getElem claims defaultClaim hi,
    List.getD_eq_getElem claims defaultClaim hj] at h
  have hi2 : i < (claims.map (fun c => c.id)).length := by
    rw [List.length_map]
    exact hi
  have hj2 : j < (claims.map (fun c => c.id)).length := by
    rw [List.length_map]
    exact hj
  have hm : (claims.map (fun c => c.id))[i] = (claims.map (fun c => c.id))[j] := by
    rw [List.getElem_map, List.getElem_map]
    exact h
  exact hcid.getElem_inj_iff.mp hm

/-- A failed lookup means no entry carries the key. -/
theorem seenLookup_none (sn : SeenMap) (key : String × String)
    (h : seenLookup sn key = none) : ∀ e ∈ sn, e.1 ≠ key := by
  intro e he
  unfold seenLookup at h
  cases hf : sn.find? (fun p => p.1 = key) with
  | none =>
    have := List.find?_eq_none.mp hf e he
    simpa using this
  | some e2 =>
    rw [hf] at h
    simp at h

/-- Appending a fresh element keeps a string list duplicate-free. -/
theorem nodup_append_one (l : List String) (x : String) (h : l.Nodup)
    (hx : x ∉ l) : (l ++ [x]).Nodup := by
  refine List.Nodup.append h (List.nodup_singleton x) ?_
  intro a ha hax
  rcases List.mem_singleton.mp hax with rfl
  exact hx ha

/-- The refined case split of one claim-loop step, remembering the guard and
the failed lookup in the fresh-chapter case. -/
theorem claimNodeStep_cases2 (chs : List ChapterRec) (claims : List Claim)
    (t : Theme) (s : List GNode × SeenMap) (ci : Nat) :
    (claimNodeStep chs claims t s ci
        = (s.1 ++ [claimNodeOf (claims.getD ci defaultClaim) t.id], s.2))
    ∨ (∃ nid, (∃ e ∈ s.2, e.2 = nid) ∧ claimNodeStep chs claims t s ci
        = (s.1 ++ [claimNodeOf (claims.getD ci defaultClaim) nid], s.2))
    ∨ (truthyOS (claims.getD ci defaultClaim).chapter_id = true
        ∧ seenLookup s.2
            (t.id, (claims.getD ci defaultClaim).chapter_id.getD "") = none
        ∧ claimNodeStep chs claims t s ci
          = ((s.1 ++ [chapterNodeOf chs t
                ((claims.getD ci defaultClaim).chapter_id.getD "")])
              ++ [claimNodeOf (claims.getD ci defaultClaim)
                    (chapterNodeOf chs t
                      ((claims.getD ci defaultClaim).chapter_id.getD "")).id],
             s.2 ++ [((t.id, (claims.getD ci defaultClaim).chapter_id.getD ""),
                (chapterNodeOf chs t
                  ((claims.getD ci defaultClaim).chapter_id.getD "")).id)])) := by
  unfold claimNodeStep
  dsimp only
  by_cases htr : truthyOS (claims.getD ci defaultClaim).chapter_id = true
  · rw [if_pos htr]
    cases hlk : seenLookup s.2
        (t.id, (claims.getD ci defaultClaim).chapter_id.getD "") with
    | some nid =>
      exact Or.inr (Or.inl ⟨nid, seenLookup_mem s.2 _ nid hlk, rfl⟩)
    | none =>
      exact Or.inr (Or.inr ⟨htr, rfl, rfl⟩)
  · rw [if_neg htr]
    exact Or.inl rfl

/-- Invariant of the claim loop: the accumulated node ids are duplicate-free,
every node is a chapter node recorded in the seen map or a claim node of a
processed index, and every seen entry is keyed by the current theme with an
occurring chapter id and the canonical chapter-node id. -/
theorem claimFold_nodup (chs : List ChapterRec) (claims : List Claim)
    (t : Theme) (htform : ThemeIdForm t.id)
    (hcid : (claims.map (fun c => c.id)).Nodup)
    (hcform : ∀ c ∈ claims, ClaimIdForm c.id)
    (hslug : ∀ c1 c2, occursChapterId claims c1 → occursChapterId claims c2 →
      slugify c1 "chapter" = slugify c2 "chapter" → c1 = c2) :
    ∀ (cis done : List Nat) (s : List GNode × SeenMap),
    (done ++ cis).Nodup →
    (∀ i ∈ done ++ cis, i < claims.length) →
    ((s.1.map (fun n => n.id)).Nodup) →
    (∀ n ∈ s.1, (n.type = "chapter" ∧ ∃ e ∈ s.2, n.id = e.2)
        ∨ (n.type = "claim" ∧ ∃ ci ∈ done,
            n.id = (claims.getD ci defaultClaim).id)) →
    (∀ e ∈ s.2, e.1.1 = t.id ∧ occursChapterId claims e.1.2
        ∧ e.2 = t.id ++ "-chapter-" ++ slugify e.1.2 "chapter") →
    (((cis.foldl (claimNodeStep chs claims t) s).1.map (fun n => n.id)).Nodup)
    ∧ (∀ n ∈ (cis.foldl (claimNodeStep chs claims t) s).1,
        (n.type = "chapter"
          ∧ ∃ e ∈ (cis.foldl (claimNodeStep chs claims t) s).2, n.id = e.2)
        ∨ (n.type = "claim" ∧ ∃ ci ∈ done ++ cis,
            n.id = (claims.getD ci defaultClaim).id))
    ∧ (∀ e ∈ (cis.foldl (claimNodeStep chs claims t) s).2,
        e.1.1 = t.id ∧ occursChapterId claims e.1.2
        ∧ e.2 = t.id ++ "-chapter-" ++ slugify e.1.2 "chapter") := by
  intro cis
  induction cis with
  | nil =>
    intro done s hnd hrange h1 h2 h3
    refine ⟨h1, ?_, h3⟩
    intro n hn
    rcases h2 n hn with h | ⟨ht, ci, hci, hid⟩
    · exact Or.inl h
    · exact Or.inr ⟨ht, ci, by rw [List.append_nil]; exact hci, hid⟩
  | cons ci rest ih =>
    intro done s hnd hrange h1 h2 h3
    rw [List.foldl_cons]
    have hci_lt : ci < claims.length :=
      hrange ci (List.mem_append_right _ (List.mem_cons_self _ _))
    have hci_mem : (claims.getD ci defaultClaim) ∈ claims :=
      getD_mem_of_lt claims defaultClaim ci hci_lt
    have hci_notdone : ci ∉ done := by
      intro hmem
      have hd := (List.nodup_append.mp hnd).2.2
      exact hd hmem (List.mem_cons_self _ _)
    have hfresh_claim : ∀ x ∈ s.1, x.id ≠ (claims.getD ci defaultClaim).id := by
      intro x hx
      rcases h2 x hx with ⟨_, e, he, hid⟩ | ⟨_, cj, hcj, hid⟩
      · obtain ⟨_, _, he2⟩ := h3 e he
        rw [hid, he2]
        obtain ⟨r, hr, _, _⟩ := htform
        obtain ⟨zs, hz⟩ := chapId_head t.id (slugify e.1.2 "chapter") r hr
        obtain ⟨ys, hy⟩ := hcform _ hci_mem
        exact ne_of_head _ _ 't' 'c' zs ys hz hy (by decide)
      · rw [hid]
        intro heq
        have hcj_lt : cj < claims.length :=
          hrange cj (List.mem_append_left _ hcj)
        have := claimId_inj_idx claims hcid cj ci hcj_lt hci_lt heq
        exact hci_notdone (this ▸ hcj)
    have hnd' : ((done ++ [ci]) ++ rest).Nodup := by
      rw [List.append_assoc]
      exact hnd
    have hrange' : ∀ i ∈ (done ++ [ci]) ++ rest, i < claims.length := by
      intro i hi
      rw [List.append_assoc] at hi
      exact hrange i hi
    have hdone_sub : ∀ cj ∈ done, cj ∈ done ++ [ci] :=
      fun cj hcj => List.mem_append_left _ hcj
    rcases claimNodeStep_cases2 chs claims t s ci with hc | ⟨nid, ⟨e0, he0, he0id⟩, hc⟩
        | ⟨htr, hlk, hc⟩
    · rw [hc]
      rw [show done ++ ci :: rest = (done ++ [ci]) ++ rest from
        (List.append_assoc done [ci] rest).symm]
      refine ih (done ++ [ci]) _ hnd' hrange' ?_ ?_ ?_
      · rw [List.map_append]
        exact nodup_append_one _ _ h1 (by
          intro hmem
          rcases List.mem_map.mp hmem with ⟨x, hx, hxid⟩
          exact hfresh_claim x hx hxid)
      · intro n hn
        rcases List.mem_append.mp hn with hn | hn
        · rcases h2 n hn with h | ⟨ht, cj, hcj, hid⟩
          · exact Or.inl h
          · exact Or.inr ⟨ht, cj, hdone_sub cj hcj, hid⟩
        · rcases List.mem_singleton.mp hn with rfl
          exact Or.inr ⟨rfl, ci,
            List.mem_append_right _ (List.mem_singleton.mpr rfl), rfl⟩
      · exact h3
    · rw [hc]
      rw [show done ++ ci :: rest = (done ++ [ci]) ++ rest from
        (List.append_assoc done [ci] rest).symm]
      refine ih (done ++ [ci]) _ hnd' hrange' ?_ ?_ ?_
      · rw [List.map_append]
        exact nodup_append_one _ _ h1 (by
          intro hmem
          rcases List.mem_map.mp hmem with ⟨x, hx, hxid⟩
          exact hfresh_claim x hx hxid)
      · intro n hn
        rcases List.mem_append.mp hn with hn | hn
        · rcases h2 n hn with h | ⟨ht, cj, hcj, hid⟩
          · exact Or.inl h
          · exact Or.inr ⟨ht, cj, hdone_sub cj hcj, hid⟩
        · rcases List.mem_singleton.mp hn with rfl
          exact Or.inr ⟨rfl, ci,
            List.mem_append_right _ (List.mem_singleton.mpr rfl), rfl⟩
      · exact h3
    · rw [hc]
      have hoccur : occursChapterId claims
          ((claims.getD ci defaultClaim).chapter_id.getD "") :=
        ⟨claims.getD ci defaultClaim, hci_mem, htr, rfl⟩
      have hfresh_chap : ∀ x ∈ s.1, x.id
          ≠ t.id ++ "-chapter-" ++ slugify
              ((claims.getD ci defaultClaim).chapter_id.getD "") "chapter" := by
        intro x hx
        rcases h2 x hx with ⟨_, e, he, hid⟩ | ⟨_, cj, hcj, hid⟩
        · obtain ⟨he1, he2, he3⟩ := h3 e he
          rw [hid, he3]
          intro heq
          have := (chapId_inj t.id t.id _ _ htform htform heq).2
          have hcids := hslug e.1.2 _ he2 hoccur this
          have hkey := seenLookup_none s.2 _ hlk e he
          apply hkey
          have : e.1 = (e.1.1, e.1.2) := rfl
          rw [this, he1, hcids]
        · rw [hid]
          obtain ⟨r, hr, _, _⟩ := htform
          obtain ⟨zs, hz⟩ := chapId_head t.id (slugify
            ((claims.getD ci defaultClaim).chapter_id.getD "") "chapter") r hr
          obtain ⟨ys, hy⟩ := hcform _ (getD_mem_of_lt claims defaultClaim cj
            (hrange cj (List.mem_append_left _ hcj)))
          exact ne_of_head _ _ 'c' 't' ys zs hy hz (by decide)
      rw [show done ++ ci :: rest = (done ++ [ci]) ++ rest from
        (List.append_assoc done [ci] rest).symm]
      refine ih (done ++ [ci]) _ hnd' hrange' ?_ ?_ ?_
      · rw [List.map_append, List.map_append]
        refine nodup_append_one _ _ ?_ ?_
        · refine nodup_append_one _ _ h1 ?_
          intro hmem
          rcases List.mem_map.mp hmem with ⟨x, hx, hxid⟩
          exact hfresh_chap x hx hxid
        · intro hmem
          rcases List.mem_append.mp hmem with hmem | hmem
          · rcases List.mem_map.mp hmem with ⟨x, hx, hxid⟩
            exact hfresh_claim x hx hxid
          · rcases List.mem_singleton.mp hmem with heq
            obtain ⟨r, hr, _, _⟩ := htform
            obtain ⟨zs, hz⟩ := chapId_head t.id (slugify
              ((claims.getD ci defaultClaim).chapter_id.getD "") "chapter") r hr
            obtain ⟨ys, hy⟩ := hcform _ hci_mem
            exact ne_of_head _ _ 't' 'c' zs ys hz hy (by decide) heq.symm
      · intro n hn
        rcases List.mem_append.mp hn with hn | hn
        · rcases List.mem_append.mp hn with hn | hn
          · rcases h2 n hn with ⟨ht, e, he, hid⟩ | ⟨ht, cj, hcj, hid⟩
            · exact Or.inl ⟨ht, e, List.mem_append_left _ he, hid⟩
            · exact Or.inr ⟨ht, cj, hdone_sub cj hcj, hid⟩
          · rcases List.mem_singleton.mp hn with rfl
            refine Or.inl ⟨rfl, _,
              List.mem_append_right _ (List.mem_singleton.mpr rfl), rfl⟩
        · rcases List.mem_singleton.mp hn with rfl
          exact Or.inr ⟨rfl, ci,
            List.mem_append_right _ (List.mem_singleton.mpr rfl), rfl⟩
      · intro e he
        rcases List.mem_append.mp he with he | he
        · obtain ⟨a, b, c⟩ := h3 e he
          exact ⟨a, b, c⟩
        · rcases List.mem_singleton.mp he with rfl
          exact ⟨rfl, hoccur, rfl⟩

/-- The claim-type nodes emitted by the claim loop are exactly the processed
claims, in order. -/
theorem claimFold_claim_ids (chs : List ChapterRec) (claims : List Claim)
    (t : Theme) :
    ∀ (cis : List Nat) (s : List GNode × SeenMap),
    (((cis.foldl (claimNodeStep chs claims t) s).1.filter
        (fun n => n.type = "claim")).map (fun n => n.id))
      = ((s.1.filter (fun n => n.type = "claim")).map (fun n => n.id))
        ++ cis.map (fun ci => (claims.getD ci defaultClaim).id) := by
  intro cis
  induction cis with
  | nil =>
    intro s
    simp
  | cons ci rest ih =>
    intro s
    rw [List.foldl_cons, ih, List.map_cons]
    rcases claimNodeStep_cases chs claims t s ci with hc | ⟨nid, _, hc⟩ | ⟨cid, hc⟩
    · rw [hc, List.filter_append, List.map_append]
      have hone : (([claimNodeOf (claims.getD ci defaultClaim) t.id]).filter
            (fun n => n.type = "claim")).map (fun n => n.id)
          = [(claims.getD ci defaultClaim).id] := by rfl
      rw [hone, List.append_assoc]
      rfl
    · rw [hc, List.filter_append, List.map_append]
      have hone : (([claimNodeOf (claims.getD ci defaultClaim) nid]).filter
            (fun n => n.type = "claim")).map (fun n => n.id)
          = [(claims.getD ci defaultClaim).id] := by rfl
      rw [hone, List.append_assoc]
      rfl
    · rw [hc, List.filter_append, List.filter_append, List.map_append,
        List.map_append]
      have hch : (([chapterNodeOf chs t cid]).filter
            (fun n => n.type = "claim")).map (fun n => n.id) = [] := by rfl
      have hone : (([claimNodeOf (claims.getD ci defaultClaim)
              (chapterNodeOf chs t cid).id]).filter
            (fun n => n.type = "claim")).map (fun n => n.id)
          = [(claims.getD ci defaultClaim).id] := by rfl
      rw [hch, hone, List.append_nil, List.append_assoc]
      rfl

/-- The claim-type nodes of one theme block list exactly its claim indices'
claims, in order. -/
theorem blockClaimIds (chs : List ChapterRec) (claims : List Claim)
    (outcomes : List Outcome) (t : Theme)
    (hotype : ∀ o ∈ outcomes,
      o.type = "action" ∨ o.type = "achievement" ∨ o.type = "blocker") :
    (((exportThemeBlock chs claims outcomes t []).1.filter
        (fun n => n.type = "claim")).map (fun n => n.id))
      = t.claim_indices.map (fun i => (claims.getD i defaultClaim).id) := by
  unfold exportThemeBlock
  dsimp only
  show ((List.filter (fun n => decide (n.type = "claim"))
      ((exportClaimNodes chs claims t []).1 ++ exportOutcomeNodes outcomes t)).map
    (fun n => n.id)) = t.claim_indices.map (fun i => (claims.getD i defaultClaim).id)
  rw [List.filter_append, List.map_append]
  have hout : (exportOutcomeNodes outcomes t).filter (fun n => n.type = "claim")
      = [] := by
    refine List.filter_eq_nil_iff.mpr ?_
    intro n hn
    unfold exportOutcomeNodes at hn
    rcases List.mem_map.mp hn with ⟨o, ho, rfl⟩
    rcases hotype o (List.mem_of_mem_filter ho) with h | h | h <;> simp [h]
  rw [hout]
  unfold exportClaimNodes
  rw [claimFold_claim_ids chs claims t t.claim_indices ([], [])]
  simp

/-- Two different first characters cannot head the same string. -/
theorem data_head_ne (x : String) (a b : Char) (xs ys : List Char)
    (h1 : x.data = a :: xs) (h2 : x.data = b :: ys) (hab : a ≠ b) : False := by
  rw [h1] at h2
  injection h2 with hh _
  exact hab hh

/-- The id list of one theme block. -/
theorem blockIds_eq (chs : List ChapterRec) (claims : List Claim)
    (outcomes : List Outcome) (t : Theme) :
    ((exportThemeBlock chs claims outcomes t []).1).map (fun n => n.id)
      = t.id :: (((exportClaimNodes chs claims t []).1).map (fun n => n.id)
          ++ ((outcomes.filter (fun o => o.theme_id = some t.id)).map
              (fun o => o.id))) := by
  unfold exportThemeBlock
  dsimp only
  show (fun n : GNode => n.id) (themeNodeOf claims outcomes t)
      :: ((exportClaimNodes chs claims t []).1
          ++ exportOutcomeNodes outcomes t).map (fun n => n.id) = _
  rw [List.map_append]
  have hout : (exportOutcomeNodes outcomes t).map (fun n => n.id)
      = (outcomes.filter (fun o => o.theme_id = some t.id)).map
          (fun o => o.id) := by
    unfold exportOutcomeNodes
    rw [List.map_map]
    rfl
  rw [hout]
  rfl

/-- One theme block's ids are duplicate-free and classified as the theme id,
chapter ids over occurring chapter strings, claims of the theme's indices, or
attached outcomes. -/
theorem block_props (chs : List ChapterRec) (claims : List Claim)
    (outcomes : List Outcome) (t : Theme) (htform : ThemeIdForm t.id)
    (hcid : (claims.map (fun c => c.id)).Nodup)
    (hcform : ∀ c ∈ claims, ClaimIdForm c.id)
    (hslug : ∀ c1 c2, occursChapterId claims c1 → occursChapterId claims c2 →
      slugify c1 "chapter" = slugify c2 "chapter" → c1 = c2)
    (hoid : (outcomes.map (fun o => o.id)).Nodup)
    (hoform : ∀ o ∈ outcomes, OutIdForm o.id)
    (hnd_t : t.claim_indices.Nodup)
    (hrange_t : ∀ ci ∈ t.claim_indices, ci < claims.length) :
    ((((exportThemeBlock chs claims outcomes t []).1).map
        (fun n => n.id)).Nodup)
    ∧ ∀ x ∈ ((exportThemeBlock chs claims outcomes t []).1).map
        (fun n => n.id),
        x = t.id
        ∨ (∃ c, occursChapterId claims c
            ∧ x = t.id ++ "-chapter-" ++ slugify c "chapter")
        ∨ (∃ ci ∈ t.claim_indices, x = (claims.getD ci defaultClaim).id)
        ∨ (∃ o ∈ outcomes, o.theme_id = some t.id ∧ x = o.id) := by
  obtain ⟨hI1, hI2, hI3⟩ := claimFold_nodup chs claims t htform hcid hcform hslug
    t.claim_indices [] ([], []) hnd_t hrange_t (by simp)
    (by intro n hn; simp at hn) (by intro e he; simp at he)
  have hfold_class : ∀ x ∈ ((exportClaimNodes chs claims t []).1).map
      (fun n => n.id),
      (∃ c, occursChapterId claims c
        ∧ x = t.id ++ "-chapter-" ++ slugify c "chapter")
      ∨ (∃ ci ∈ t.claim_indices, x = (claims.getD ci defaultClaim).id) := by
    intro x hx
    rcases List.mem_map.mp hx with ⟨n, hn, rfl⟩
    rcases hI2 n hn with ⟨_, e, he, hid⟩ | ⟨_, ci, hci, hid⟩
    · obtain ⟨_, hocc, hshape⟩ := hI3 e he
      exact Or.inl ⟨e.1.2, hocc, by rw [hid, hshape]⟩
    · exact Or.inr ⟨ci, hci, hid⟩
  have hfold_head : ∀ x ∈ ((exportClaimNodes chs claims t []).1).map
      (fun n => n.id), ∃ zs, x.data = 't' :: zs ∨ x.data = 'c' :: zs := by
    intro x hx
    rcases hfold_class x hx with ⟨c, _, hid⟩ | ⟨ci, hci, hid⟩
    · obtain ⟨r, hr, _, _⟩ := htform
      obtain ⟨zs, hz⟩ := chapId_head t.id (slugify c "chapter") r hr
      exact ⟨zs, Or.inl (by rw [hid]; exact hz)⟩
    · obtain ⟨ys, hy⟩ := hcform _ (getD_mem_of_lt claims defaultClaim ci
        (hrange_t ci hci))
      exact ⟨ys, Or.inr (by rw [hid]; exact hy)⟩
  constructor
  · rw [blockIds_eq]
    refine List.nodup_cons.mpr ⟨?_, ?_⟩
    · intro hmem
      rcases List.mem_append.mp hmem with hmem | hmem
      · rcases hfold_class _ hmem with ⟨c, _, hid⟩ | ⟨ci, hci, hid⟩
        · exact themeId_ne_chapId t.id t.id (slugify c "chapter") htform htform hid
        · obtain ⟨zs, hz⟩ := themeId_head t.id htform
          obtain ⟨ys, hy⟩ := hcform _ (getD_mem_of_lt claims defaultClaim ci
            (hrange_t ci hci))
          rw [← hid] at hy
          exact data_head_ne t.id 't' 'c' zs ys hz hy (by decide)
      · rcases List.mem_map.mp hmem with ⟨o, ho, hid⟩
        obtain ⟨zs, hz⟩ := themeId_head t.id htform
        obtain ⟨ys, hy⟩ := hoform o (List.mem_of_mem_filter ho)
        rw [hid] at hy
        exact data_head_ne t.id 't' 'o' zs ys hz hy (by decide)
    · refine List.Nodup.append hI1 ?_ ?_
      · exact hoid.sublist (List.Sublist.map _ (List.filter_sublist outcomes))
      · intro x hx1 hx2
        rcases List.mem_map.mp hx2 with ⟨o, ho, hid⟩
        obtain ⟨ys, hy⟩ := hoform o (List.mem_of_mem_filter ho)
        rw [hid] at hy
        obtain ⟨zs, hz⟩ := hfold_head x hx1
        rcases hz with hz | hz
        · exact data_head_ne x 't' 'o' zs ys hz hy (by decide)
        · exact data_head_ne x 'c' 'o' zs ys hz hy (by decide)
  · intro x hx
    rw [blockIds_eq] at hx
    rcases List.mem_cons.mp hx with rfl | hx
    · exact Or.inl rfl
    · rcases List.mem_append.mp hx with hx | hx
      · rcases hfold_class x hx with h | h
        · exact Or.inr (Or.inl h)
        · exact Or.inr (Or.inr (Or.inl h))
      · rcases List.mem_map.mp hx with ⟨o, ho, hid⟩
        have hp := List.mem_filter.mp ho
        refine Or.inr (Or.inr (Or.inr ⟨o, hp.1, ?_, hid.symm⟩))
        have := hp.2
        simpa using this

/-- Blocks of themes with different ids and disjoint claim indices share no
node id. -/
theorem blockIds_disjoint (chs : List ChapterRec) (claims : List Claim)
    (outcomes : List Outcome) (t1 t2 : Theme)
    (h1form : ThemeIdForm t1.id) (h2form : ThemeIdForm t2.id)
    (hne : t1.id ≠ t2.id)
    (hdisj : List.Disjoint t1.claim_indices t2.claim_indices)
    (hcid : (claims.map (fun c => c.id)).Nodup)
    (hcform : ∀ c ∈ claims, ClaimIdForm c.id)
    (hslug : ∀ c1 c2, occursChapterId claims c1 → occursChapterId claims c2 →
      slugify c1 "chapter" = slugify c2 "chapter" → c1 = c2)
    (hoid : (outcomes.map (fun o => o.id)).Nodup)
    (hoform : ∀ o ∈ outcomes, OutIdForm o.id)
    (hnd1 : t1.claim_indices.Nodup) (hnd2 : t2.claim_indices.Nodup)
    (hrange1 : ∀ ci ∈ t1.claim_indices, ci < claims.length)
    (hrange2 : ∀ ci ∈ t2.claim_indices, ci < claims.length) :
    List.Disjoint
      (((exportThemeBlock chs claims outcomes t1 []).1).map (fun n => n.id))
      (((exportThemeBlock chs claims outcomes t2 []).1).map (fun n => n.id)) := by
  intro x hx1 hx2
  have hclass1 := (block_props chs claims outcomes t1 h1form hcid hcform hslug
    hoid hoform hnd1 hrange1).2 x hx1
  have hclass2 := (block_props chs claims outcomes t2 h2form hcid hcform hslug
    hoid hoform hnd2 hrange2).2 x hx2
  have hchead1 : ∀ ci ∈ t1.claim_indices, ∃ ys,
      (claims.getD ci defaultClaim).id.data = 'c' :: ys :=
    fun ci hci => hcform _ (getD_mem_of_lt claims defaultClaim ci (hrange1 ci hci))
  have hchead2 : ∀ ci ∈ t2.claim_indices, ∃ ys,
      (claims.getD ci defaultClaim).id.data = 'c' :: ys :=
    fun ci hci => hcform _ (getD_mem_of_lt claims defaultClaim ci (hrange2 ci hci))
  rcases hclass1 with h1 | ⟨c1, hoc1, h1⟩ | ⟨ci, hci, h1⟩ | ⟨o1, ho1, hot1, h1⟩
  · rcases hclass2 with h2 | ⟨c2, hoc2, h2⟩ | ⟨cj, hcj, h2⟩ | ⟨o2, ho2, hot2, h2⟩
    · exact hne (h1 ▸ h2 ▸ rfl)
    · exact themeId_ne_chapId t1.id t2.id (slugify c2 "chapter") h1form h2form
        (h1 ▸ h2)
    · obtain ⟨zs, hz⟩ := themeId_head t1.id h1form
      obtain ⟨ys, hy⟩ := hchead2 cj hcj
      rw [← h2, h1] at hy
      exact data_head_ne t1.id 't' 'c' zs ys hz hy (by decide)
    · obtain ⟨zs, hz⟩ := themeId_head t1.id h1form
      obtain ⟨ys, hy⟩ := hoform o2 ho2
      rw [← h2, h1] at hy
      exact data_head_ne t1.id 't' 'o' zs ys hz hy (by decide)
  · rcases hclass2 with h2 | ⟨c2, hoc2, h2⟩ | ⟨cj, hcj, h2⟩ | ⟨o2, ho2, hot2, h2⟩
    · exact themeId_ne_chapId t2.id t1.id (slugify c1 "chapter") h2form h1form
        (h2 ▸ h1)
    · have heq := h1.symm.trans h2
      exact hne (chapId_inj t1.id t2.id _ _ h1form h2form heq).1
    · obtain ⟨r1, hr1, _, _⟩ := h1form
      obtain ⟨zs, hz⟩ := chapId_head t1.id (slugify c1 "chapter") r1 hr1
      rw [← h1] at hz
      obtain ⟨ys, hy⟩ := hchead2 cj hcj
      rw [← h2] at hy
      exact data_head_ne x 't' 'c' zs ys hz hy (by decide)
    · obtain ⟨r1, hr1, _, _⟩ := h1form
      obtain ⟨zs, hz⟩ := chapId_head t1.id (slugify c1 "chapter") r1 hr1
      rw [← h1] at hz
      obtain ⟨ys, hy⟩ := hoform o2 ho2
      rw [← h2] at hy
      exact data_head_ne x 't' 'o' zs ys hz hy (by decide)
  · rcases hclass2 with h2 | ⟨c2, hoc2, h2⟩ | ⟨cj, hcj, h2⟩ | ⟨o2, ho2, hot2, h2⟩
    · obtain ⟨zs, hz⟩ := themeId_head t2.id h2form
      obtain ⟨ys, hy⟩ := hchead1 ci hci
      rw [← h1, h2] at hy
      exact data_head_ne t2.id 't' 'c' zs ys hz hy (by decide)
    · obtain ⟨r2, hr2, _, _⟩ := h2form
      obtain ⟨zs, hz⟩ := chapId_head t2.id (slugify c2 "chapter") r2 hr2
      rw [← h2] at hz
      obtain ⟨ys, hy⟩ := hchead1 ci hci
      rw [← h1] at hy
      exact data_head_ne x 't' 'c' zs ys hz hy (by decide)
    · have heq := h1.symm.trans h2
      have := claimId_inj_idx claims hcid ci cj (hrange1 ci hci) (hrange2 cj hcj) heq
      exact hdisj hci (this ▸ hcj)
    · obtain ⟨ys, hy⟩ := hchead1 ci hci
      rw [← h1] at hy
      obtain ⟨zs, hz⟩ := hoform o2 ho2
      rw [← h2] at hz
      exact data_head_ne x 'c' 'o' ys zs hy hz (by decide)
  · rcases hclass2 with h2 | ⟨c2, hoc2, h2⟩ | ⟨cj, hcj, h2⟩ | ⟨o2, ho2, hot2, h2⟩
    · obtain ⟨zs, hz⟩ := themeId_head t2.id h2form
      obtain ⟨ys, hy⟩ := hoform o1 ho1
      rw [← h1, h2] at hy
      exact data_head_ne t2.id 't' 'o' zs ys hz hy (by decide)
    · obtain ⟨r2, hr2, _, _⟩ := h2form
      obtain ⟨zs, hz⟩ := chapId_head t2.id (slugify c2 "chapter") r2 hr2
      rw [← h2] at hz
      obtain ⟨ys, hy⟩ := hoform o1 ho1
      rw [← h1] at hy
      exact data_head_ne x 't' 'o' zs ys hz hy (by decide)
    · obtain ⟨ys, hy⟩ := hchead2 cj hcj
      rw [← h2] at hy
      obtain ⟨zs, hz⟩ := hoform o1 ho1
      rw [← h1] at hz
      exact data_head_ne x 'c' 'o' ys zs hy hz (by decide)
    · have heq : o1.id = o2.id := h1.symm.trans h2
      have ho12 : o1 = o2 := List.inj_on_of_nodup_map hoid ho1 ho2 heq
      rw [ho12, hot2] at hot1
      exact hne (Option.some_inj.mp hot1).symm

/-- Concatenated per-theme blocks have pairwise-distinct node ids. -/
theorem export_ids_nodup_aux (chs : List ChapterRec) (claims : List Claim)
    (outcomes : List Outcome)
    (hcid : (claims.map (fun c => c.id)).Nodup)
    (hcform : ∀ c ∈ claims, ClaimIdForm c.id)
    (hslug : ∀ c1 c2, occursChapterId claims c1 → occursChapterId claims c2 →
      slugify c1 "chapter" = slugify c2 "chapter" → c1 = c2)
    (hoid : (outcomes.map (fun o => o.id)).Nodup)
    (hoform : ∀ o ∈ outcomes, OutIdForm o.id) :
    ∀ ts : List Theme,
    (ts.map Theme.id).Nodup →
    (∀ t ∈ ts, ThemeIdForm t.id) →
    ((ts.map Theme.claim_indices).flatten).Nodup →
    (∀ t ∈ ts, ∀ ci ∈ t.claim_indices, ci < claims.length) →
    ((ts.map (fun t => ((exportThemeBlock chs claims outcomes t []).1.map
        (fun n => n.id)))).flatten).Nodup := by
  intro ts
  induction ts with
  | nil =>
    intro _ _ _ _
    simp
  | cons t rest ih =>
    intro hndid hform hndidx hrange
    rw [List.map_cons, List.flatten_cons]
    have hidx : (t.claim_indices ++ (rest.map Theme.claim_indices).flatten).Nodup := by
      rw [List.map_cons, List.flatten_cons] at hndidx
      exact hndidx
    have hidxparts := List.nodup_append.mp hidx
    have hndid2 : (t.id :: rest.map Theme.id).Nodup := by
      rw [List.map_cons] at hndid
      exact hndid
    have hidparts := List.nodup_cons.mp hndid2
    refine List.Nodup.append ?_ ?_ ?_
    · exact (block_props chs claims outcomes t
        (hform t (List.mem_cons_self _ _)) hcid hcform hslug hoid hoform
        hidxparts.1 (hrange t (List.mem_cons_self _ _))).1
    · exact ih hidparts.2 (fun t2 ht2 => hform t2 (List.mem_cons_of_mem _ ht2))
        hidxparts.2.1
        (fun t2 ht2 ci hci => hrange t2 (List.mem_cons_of_mem _ ht2) ci hci)
    · intro x hx1 hx2
      rcases List.mem_flatten.mp hx2 with ⟨L, hL, hxL⟩
      rcases List.mem_map.mp hL with ⟨t2, ht2, rfl⟩
      have hneid : t.id ≠ t2.id := by
        intro heq
        exact hidparts.1 (heq ▸ List.mem_map_of_mem Theme.id ht2)
      have hdisj : List.Disjoint t.claim_indices t2.claim_indices := by
        intro a ha1 ha2
        refine hidxparts.2.2 ha1 ?_
        exact List.mem_flatten.mpr ⟨t2.claim_indices,
          List.mem_map_of_mem Theme.claim_indices ht2, ha2⟩
      have hnd2 : t2.claim_indices.Nodup :=
        hidxparts.2.1.sublist (List.sublist_flatten_of_mem
          (List.mem_map_of_mem Theme.claim_indices ht2))
      exact blockIds_disjoint chs claims outcomes t t2
        (hform t (List.mem_cons_self _ _)) (hform t2 (List.mem_cons_of_mem _ ht2))
        hneid hdisj hcid hcform hslug hoid hoform hidxparts.1 hnd2
        (hrange t (List.mem_cons_self _ _))
        (hrange t2 (List.mem_cons_of_mem _ ht2)) hx1 hxL

/-- The claim nodes of the concatenated blocks list exactly the flattened
claim indices' claims, in order. -/
theorem export_claim_ids_aux (chs : List ChapterRec) (claims : List Claim)
    (outcomes : List Outcome)
    (hotype : ∀ o ∈ outcomes,
      o.type = "action" ∨ o.type = "achievement" ∨ o.type = "blocker") :
    ∀ ts : List Theme,
    (((ts.map (fun t => (exportThemeBlock chs claims outcomes t []).1)).flatten.filter
        (fun n => n.type = "claim")).map (fun n => n.id))
      = ((ts.map Theme.claim_indices).flatten).map
          (fun i => (claims.getD i defaultClaim).id) := by
  intro ts
  induction ts with
  | nil => simp
  | cons t rest ih =>
    rw [List.map_cons, List.flatten_cons, List.map_cons, List.flatten_cons,
      List.filter_append, List.map_append, List.map_append,
      blockClaimIds chs claims outcomes t hotype, ih]

/-- Claim C9 (amended): under the pipeline's id invariants — duplicate-free
theme ids of shape `theme-*` with hyphen-free suffix, duplicate-free claim
indices partitioned over themes and in range, duplicate-free claim and
outcome ids of shapes `c*`/`o*`, outcome types among the three produced
kinds, and `_slugify` injective on the occurring chapter ids — all node ids
of the exported graph are pairwise distinct, and the claim nodes list
exactly the themes' claims once each, in order.  Without slug injectivity
the property fails (see the counterexample with colliding chapter slugs). -/
theorem c9_unique_ids_amended (inp : BuilderInput) (claims : List Claim)
    (outcomes : List Outcome) (themes : List Theme)
    (hthid : (themes.map Theme.id).Nodup)
    (hthform : ∀ t ∈ themes, ThemeIdForm t.id)
    (hidx : ((themes.map Theme.claim_indices).flatten).Nodup)
    (hrange : ∀ t ∈ themes, ∀ ci ∈ t.claim_indices, ci < claims.length)
    (hcid : (claims.map (fun c => c.id)).Nodup)
    (hcform : ∀ c ∈ claims, ClaimIdForm c.id)
    (hoid : (outcomes.map (fun o => o.id)).Nodup)
    (hoform : ∀ o ∈ outcomes, OutIdForm o.id)
    (hotype : ∀ o ∈ outcomes,
      o.type = "action" ∨ o.type = "achievement" ∨ o.type = "blocker")
    (hslug : ∀ c1 c2, occursChapterId claims c1 → occursChapterId claims c2 →
      slugify c1 "chapter" = slugify c2 "chapter" → c1 = c2) :
    (((exportGraph inp claims outcomes themes).nodes.map (fun n => n.id)).Nodup)
    ∧ (((exportGraph inp claims outcomes themes).nodes.filter
          (fun n => n.type = "claim")).map (fun n => n.id)
        = ((themes.map Theme.claim_indices).flatten).map
            (fun i => (claims.getD i defaultClaim).id)) := by
  have hnodes : (exportGraph inp claims outcomes themes).nodes
      = (themes.map (fun t =>
          (exportThemeBlock inp.chapters claims outcomes t []).1)).flatten := by
    show (themes.foldl (exportStep inp.chapters claims outcomes) ([], [])).1 = _
    rw [exportFold_blocks inp.chapters claims outcomes themes [] []
      (by intro e he; simp at he) hthid]
    rw [List.nil_append]
  constructor
  · rw [hnodes, List.map_flatten]
    have hmm : ((themes.map (fun t =>
          (exportThemeBlock inp.chapters claims outcomes t []).1)).map
        (List.map (fun n => n.id)))
        = themes.map (fun t =>
            ((exportThemeBlock inp.chapters claims outcomes t []).1.map
              (fun n => n.id))) := by
      rw [List.map_map]
      rfl
    rw [hmm]
    exact export_ids_nodup_aux inp.chapters claims outcomes hcid hcform hslug
      hoid hoform themes hthid hthform hidx hrange
  · rw [hnodes]
    exact export_claim_ids_aux inp.chapters claims outcomes hotype themes

/-- Witness for C9's amended theorem on the concrete two-theme state. -/
theorem c9_unique_ids_witness :
    (((exportGraph plainInput wfClaims wfOutcomes wfThemes).nodes.map
        (fun n => n.id)).Nodup)
    ∧ (((exportGraph plainInput wfClaims wfOutcomes wfThemes).nodes.filter
          (fun n => n.type = "claim")).map (fun n => n.id)
        = ((wfThemes.map Theme.claim_indices).flatten).map
            (fun i => (wfClaims.getD i defaultClaim).id)) :=
  c9_unique_ids_amended plainInput wfClaims wfOutcomes wfThemes
    (by decide)
    (by
      intro t ht
      rcases List.mem_cons.mp ht with rfl | ht2
      · exact ⟨"001".data, by decide, by decide, by decide⟩
      rcases List.mem_cons.mp ht2 with rfl | ht3
      · exact ⟨"more".data, by decide, by decide, by decide⟩
      exact absurd ht3 (List.not_mem_nil t))
    (by decide)
    (by decide)
    (by decide)
    (by
      intro c hc
      rcases List.mem_cons.mp hc with rfl | hc2
      · exact ⟨"laim-001".data, by decide⟩
      rcases List.mem_cons.mp hc2 with rfl | hc3
      · exact ⟨"laim-002".data, by decide⟩
      exact absurd hc3 (List.not_mem_nil c))
    (by decide)
    (by
      intro o ho
      rcases List.mem_cons.mp ho with rfl | ho2
      · exact ⟨"utcome-001".data, by decide⟩
      exact absurd ho2 (List.not_mem_nil o))
    (by decide)
    (by
      have hone : ∀ c, occursChapterId wfClaims c → c = "ch-01" := by
        rintro c ⟨cl, hcl, htr, hgd⟩
        rcases List.mem_cons.mp hcl with rfl | hcl2
        · rw [← hgd]
          rfl
        rcases List.mem_cons.mp hcl2 with rfl | hcl3
        · exact absurd htr (by decide)
        exact absurd hcl3 (List.not_mem_nil cl)
      intro c1 c2 h1 h2 _
      rw [hone c1 h1, hone c2 h2])
